import Mathlib

/-!
Shallow embedding of the procedural island map generator of the
tower_defense repository (`src/map/map_generator.py`), together with proofs
of the specified properties.

Modelling conventions:
* Python floats are modelled by exact rationals.  Comparisons of a
  `math.sqrt` expression against a threshold are encoded by the equivalent
  squared comparison (`sqrtLt` below), which decides the real inequality
  exactly.
* The process-global `random` module is modelled by an explicit stream of
  rational draws; every call into the module consumes one draw and is
  deterministic in the stream.  A well-formed stream has every draw in
  `[0, 1)`.
* `math.cos` / `math.sin` are modelled by truncated Maclaurin series; no
  verified property depends on the accuracy of the trigonometric values,
  only on the fact that the derived cell coordinates are a deterministic
  function of the stream.
-/

namespace MapGen

/-- Terrain tag of one grid cell (`WaterTile` / `GrassTile` / `SandTile`). -/
inductive Terrain : Type
  | water
  | grass
  | sand
deriving DecidableEq, Repr

/-- Kind of a placed map object (`Tree` / `Rock`). -/
inductive ObjKind : Type
  | tree
  | rock
deriving DecidableEq, Repr

/-- The logical grid: `g x y` is the terrain of cell `(x, y)`; the source
stores the same data as `self.grid[y][x]`.  Cells outside `[0, n) × [0, n)`
are never read by any stage (every neighbour access is bounds-checked). -/
abbrev Grid := ℕ → ℕ → Terrain

/-- Cell update `self.grid[y][x] = ...`. -/
def setCell (g : Grid) (x y : ℕ) (t : Terrain) : Grid :=
  fun a b => if a = x ∧ b = y then t else g a b

/-- The object dictionary `self.map_objects`, keyed by cell position.  The
generator only inserts keys it has checked to be absent, so an append-only
association list has the same lookup semantics as the Python dict. -/
abbrev ObjMap := List ((ℕ × ℕ) × ObjKind)

/-- The pseudo-random source: an infinite stream of rational draws (one per
call into the `random` module) and the index of the next draw. -/
structure Rng where
  vals : ℕ → ℚ
  idx : ℕ

/-- A well-formed stream delivers every draw inside `[0, 1)`, as
`random.random()` does. -/
def Rng.WF (r : Rng) : Prop := ∀ i, 0 ≤ r.vals i ∧ r.vals i < 1

/-- Consume one raw draw: `random.random()`. -/
def Rng.next (r : Rng) : ℚ × Rng :=
  (r.vals r.idx, ⟨r.vals, r.idx + 1⟩)

/-- `random.uniform(a, b)`: affine image of one raw draw on `[a, b]`. -/
def Rng.uniform (r : Rng) (a b : ℚ) : ℚ × Rng :=
  let (v, r') := r.next
  (a + (b - a) * v, r')

/-- Map one raw draw to an integer below `k` (clamped so that the result is
always `< k` whenever `0 < k`, which `random._randbelow` guarantees). -/
def natBelow (v : ℚ) (k : ℕ) : ℕ :=
  min (Int.toNat ⌊v * k⌋) (k - 1)

/-- `random.randint(a, b)`: uniform integer in `[a, b]` (the source only
calls it with `a ≤ b`). -/
def Rng.randint (r : Rng) (a b : ℤ) : ℤ × Rng :=
  let (v, r') := r.next
  (a + natBelow v (b - a + 1).toNat, r')

/-- `random.choice(l)` for nonempty `l`; returns `d` on the empty list,
which the source never reaches. -/
def Rng.choice (r : Rng) (l : List α) (d : α) : α × Rng :=
  let (v, r') := r.next
  (l.getD (natBelow v l.length) d, r')

/-- Swap the entries at positions `i` and `j` (identity out of range). -/
def listSwap (l : List α) (i j : ℕ) : List α :=
  match l.get? i, l.get? j with
  | some a, some b => (l.set i b).set j a
  | _, _ => l

/-- Fisher–Yates sweep of `random.shuffle`: for `i = len-1, …, 1` swap
position `i` with a drawn position `j ≤ i`. -/
def shuffleAux : ℕ → List α → Rng → List α × Rng
  | 0, l, r => (l, r)
  | i + 1, l, r =>
    let (v, r') := r.next
    shuffleAux i (listSwap l (i + 1) (natBelow v (i + 2))) r'

/-- `random.shuffle(l)`. -/
def Rng.shuffle (r : Rng) (l : List α) : List α × Rng :=
  shuffleAux (l.length - 1) l r

/-- Rational stand-in for the float constant `math.pi`. -/
def piQ : ℚ := 3.141592653589793

/-- Rational stand-in for `math.cos` (truncated Maclaurin series); see the
module docstring. -/
def cosQ (t : ℚ) : ℚ := 1 - t ^ 2 / 2 + t ^ 4 / 24 - t ^ 6 / 720

/-- Rational stand-in for `math.sin` (truncated Maclaurin series). -/
def sinQ (t : ℚ) : ℚ := t - t ^ 3 / 6 + t ^ 5 / 120

/-- Python `int(q)`: truncation toward zero. -/
def pyInt (q : ℚ) : ℤ := if 0 ≤ q then ⌊q⌋ else -⌊-q⌋

/-- Exact decision of `Real.sqrt a < b` for `0 ≤ a`: true iff `b` is
positive and `a < b ^ 2`.  All comparisons of a `math.sqrt` distance with a
threshold in the source are encoded through this test, applied to the
squared distance. -/
def sqrtLt (a b : ℚ) : Bool := decide (0 < b) && decide (a < b ^ 2)

/-- `range(lo, hi)` over naturals. -/
def natRange (lo hi : ℕ) : List ℕ := (List.range (hi - lo)).map (lo + ·)

/-- `range(lo, hi)` over integers; every use has `0 ≤ lo`, so the values are
returned as naturals. -/
def intRangeN (lo hi : ℤ) : List ℕ :=
  (List.range (hi - lo).toNat).map (fun (i : ℕ) => (lo + (i : ℤ)).toNat)

/-- All cells `(x, y)` in the y-major order of the source's nested
`for y: for x:` loops. -/
def cells (n : ℕ) : List (ℕ × ℕ) :=
  (List.range n).flatMap (fun y => (List.range n).map (fun x => (x, y)))

/-- Offsets `(dx, dy)` of the full 3×3 window, in the iteration order of the
source's `for dy in range(-1, 2): for dx in range(-1, 2):` loops, centre
included. -/
def offsets9 : List (ℤ × ℤ) :=
  [(-1, -1), (0, -1), (1, -1), (-1, 0), (0, 0), (1, 0), (-1, 1), (0, 1), (1, 1)]

/-- The 8-neighbourhood offsets (3×3 window minus the centre), in source
iteration order. -/
def offsets8 : List (ℤ × ℤ) :=
  [(-1, -1), (0, -1), (1, -1), (-1, 0), (1, 0), (-1, 1), (0, 1), (1, 1)]

/-- The 4 cardinal offsets in the order used by the beach second-ring loop.  -/
def offsets4 : List (ℤ × ℤ) := [(1, 0), (0, 1), (-1, 0), (0, -1)]

/-- Does cell `(x+dx, y+dy)` lie on the grid and carry terrain `t`?  Mirrors
the bounds-checked neighbour tests of the source. -/
def nbrIs (n : ℕ) (g : Grid) (x y : ℕ) (d : ℤ × ℤ) (t : Terrain) : Bool :=
  let nx : ℤ := (x : ℤ) + d.1
  let ny : ℤ := (y : ℤ) + d.2
  decide (0 ≤ nx) && decide (nx < n) && decide (0 ≤ ny) && decide (ny < n) &&
    decide (g nx.toNat ny.toNat = t)

/-- Number of cells of terrain `t` among the given offsets from `(x, y)`. -/
def countNbrs (n : ℕ) (g : Grid) (x y : ℕ) (ds : List (ℤ × ℤ)) (t : Terrain) : ℕ :=
  (ds.filter (fun d => nbrIs n g x y d t)).length

/-- Unset cells (`None` in the source) are all overwritten by the water-base
pass before any read, so the blank value is irrelevant; water is used. -/
def blankGrid : Grid := fun _ _ => Terrain.water

/-- Stage A, `_create_water_base`: every cell becomes `Water`. -/
def createWaterBase (n : ℕ) : Grid :=
  (cells n).foldl (fun g p => setCell g p.1 p.2 Terrain.water) blankGrid

/-- One sweep over a list of cells in which every visited cell consumes
exactly one raw draw `v` and rewrites its own terrain to `f p v t`, `t`
being the cell's current terrain.  Stage B and the per-lake loop of Stage C
are sweeps of this form. -/
def scanCells (f : ℕ × ℕ → ℚ → Terrain → Terrain) (ps : List (ℕ × ℕ))
    (g : Grid) (r : Rng) : Grid × Rng :=
  ps.foldl (fun gr p =>
    let (v, r') := gr.2.next
    (setCell gr.1 p.1 p.2 (f p v (gr.1 p.1 p.2)), r')) (g, r)

/-- `ISLAND_RADIUS_FACTOR` from `config.py`. -/
def islandRadiusFactor : ℚ := 0.4

/-- `island_radius = int(self.grid_size * ISLAND_RADIUS_FACTOR)`. -/
def islandRadius (n : ℕ) : ℤ := pyInt ((n : ℚ) * islandRadiusFactor)

/-- The Stage-B per-cell rule: with raw draw `v`, the noise is
`edge_noise = uniform(-1.5, 1.5) = -1.5 + 3 v`; the cell turns to grass when
`distance < island_radius + edge_noise` where `distance` is the Euclidean
distance to the centre `(n // 2, n // 2)`. -/
def islandCellStep (n : ℕ) (p : ℕ × ℕ) (v : ℚ) (t : Terrain) : Terrain :=
  let c : ℕ := n / 2
  let d2 : ℚ := ((p.1 : ℚ) - c) ^ 2 + ((p.2 : ℚ) - c) ^ 2
  let noise : ℚ := -(3 / 2) + 3 * v
  if sqrtLt d2 ((islandRadius n : ℚ) + noise) then Terrain.grass else t

/-- Stage B, `_create_main_island`. -/
def createMainIsland (n : ℕ) (g : Grid) (r : Rng) : Grid × Rng :=
  scanCells (islandCellStep n) (cells n) g r

/-- The per-cell rule of one lake's bounding-box sweep: with raw draw `v`,
`lake_edge_noise = uniform(-0.3, 0.3) = -0.3 + 0.6 v`; the cell becomes
water when `dist_from_lake_center < lake_radius + lake_edge_noise` and it is
currently grass (existing water is never overwritten). -/
def lakeCellStep (lakeX lakeY lakeR : ℤ) (p : ℕ × ℕ) (v : ℚ) (t : Terrain) : Terrain :=
  let d2 : ℚ := ((p.1 : ℚ) - lakeX) ^ 2 + ((p.2 : ℚ) - lakeY) ^ 2
  let noise : ℚ := -(3 / 10) + (3 / 5) * v
  if sqrtLt d2 ((lakeR : ℚ) + noise) then
    if t = Terrain.grass then Terrain.water else t
  else t

/-- The bounding-box cells of one lake, y-major as in the source. -/
def lakeBox (n : ℕ) (lakeX lakeY lakeR : ℤ) : List (ℕ × ℕ) :=
  (intRangeN (max 0 (lakeY - lakeR)) (min (n : ℤ) (lakeY + lakeR + 1))).flatMap
    (fun y => (intRangeN (max 0 (lakeX - lakeR)) (min (n : ℤ) (lakeX + lakeR + 1))).map
      (fun x => (x, y)))

/-- One iteration of the lake loop: draw the lake's position (angle and
radial distance from the centre, kept within half the island radius) and its
radius `randint(3, 6)`, then sweep its bounding box. -/
def addOneLake (n : ℕ) (gr : Grid × Rng) : Grid × Rng :=
  let c : ℕ := n / 2
  let ir := islandRadius n
  let (a1, r1) := gr.2.next
  let angle : ℚ := a1 * 2 * piQ
  let (d1, r2) := r1.next
  let dist : ℚ := d1 * ((ir : ℚ) * (1 / 2))
  let lakeX : ℤ := pyInt ((c : ℚ) + dist * cosQ angle)
  let lakeY : ℤ := pyInt ((c : ℚ) + dist * sinQ angle)
  let (lakeR, r3) := r2.randint 3 6
  scanCells (lakeCellStep lakeX lakeY lakeR) (lakeBox n lakeX lakeY lakeR) gr.1 r3

/-- Stage C, `_add_lakes`: `num_lakes ~ randint(LAKE_COUNT_RANGE)` lakes. -/
def addLakes (n : ℕ) (g : Grid) (r : Rng) : Grid × Rng :=
  let (numLakes, r1) := r.randint 1 2
  (List.range numLakes.toNat).foldl (fun gr _ => addOneLake n gr) (g, r1)

/-- Neighbour offsets visited by the flood-fill loop: the source iterates
the full 3×3 window and skips only the diagonals, so the centre offset
`(0, 0)` is kept; it is always rejected by the visited check because the
popped cell is itself visited. -/
def floodOffsets : List (ℤ × ℤ) := [(0, -1), (-1, 0), (0, 0), (1, 0), (0, 1)]

/-- The in-bounds water cells among the flood offsets of a cell. -/
def floodCandidates (n : ℕ) (g : Grid) (p : ℕ × ℕ) : List (ℕ × ℕ) :=
  (floodOffsets.filter (fun d => nbrIs n g p.1 p.2 d Terrain.water)).map
    (fun d => (((p.1 : ℤ) + d.1).toNat, ((p.2 : ℤ) + d.2).toNat))

/-- The flood-fill loop of `_add_consistent_beaches`, with explicit fuel for
the source's `while queue:` loop (`floodFuel` below is enough for the queue
to drain).  The source's `visited` set and `ocean_tiles` list always hold
exactly the same cells and are merged into the one list `visited` here. -/
def floodFill (n : ℕ) (g : Grid) : ℕ → List (ℕ × ℕ) → List (ℕ × ℕ) → List (ℕ × ℕ)
  | 0, visited, _ => visited
  | _ + 1, visited, [] => visited
  | fuel + 1, visited, p :: queue =>
    let step := (floodCandidates n g p).foldl
      (fun (vq : List (ℕ × ℕ) × List (ℕ × ℕ)) q =>
        if q ∈ vq.1 then vq else (vq.1 ++ [q], vq.2 ++ [q]))
      (visited, queue)
    floodFill n g fuel step.1 step.2

/-- The ocean seed cells: water within 5 cells of the border, in scan order.
(For `n < 5` the truncated subtraction `n - 5 = 0` makes the last two
disjuncts always true, exactly as Python's negative `grid_size - 5` does.) -/
def oceanSeeds (n : ℕ) (g : Grid) : List (ℕ × ℕ) :=
  (cells n).filter (fun p =>
    decide (g p.1 p.2 = Terrain.water) &&
      (decide (p.1 < 5) || decide (p.2 < 5) ||
        decide (n - 5 ≤ p.1) || decide (n - 5 ≤ p.2)))

/-- Enough fuel for the flood fill to drain its queue. -/
def floodFuel (n : ℕ) (seeds : List (ℕ × ℕ)) : ℕ := seeds.length + 2 * (n * n) + 1

/-- The ocean classification: everything the flood fill reaches from the
seeds. -/
def oceanTiles (n : ℕ) (g : Grid) : List (ℕ × ℕ) :=
  let seeds := oceanSeeds n g
  floodFill n g (floodFuel n seeds) seeds seeds

/-- The lake tiles: water cells not in the flood fill's `visited` set
(passed in as `ocean`, as the source reuses the set it just computed). -/
def lakeTiles (n : ℕ) (g : Grid) (ocean : List (ℕ × ℕ)) : List (ℕ × ℕ) :=
  (cells n).filter (fun p =>
    decide (g p.1 p.2 = Terrain.water) && decide (p ∉ ocean))

/-- The 8-neighbourhood offsets in the order of the lake-beach loop's
explicit `(dy, dx)` list. -/
def offsetsLakeBeach : List (ℤ × ℤ) :=
  [(1, 0), (0, 1), (-1, 0), (0, -1), (1, 1), (-1, -1), (-1, 1), (1, -1)]

/-- Collect, without duplicates, the grass cells in the window `ds` around
any cell of `src`.  (The source accumulates a Python set; iteration order of
that set does not affect the resulting grid, so insertion order is used.) -/
def grassNbrsOf (n : ℕ) (g : Grid) (src : List (ℕ × ℕ)) (ds : List (ℤ × ℤ)) :
    List (ℕ × ℕ) :=
  src.foldl (fun acc p =>
    ds.foldl (fun acc d =>
      if nbrIs n g p.1 p.2 d Terrain.grass then
        let q := (((p.1 : ℤ) + d.1).toNat, ((p.2 : ℤ) + d.2).toNat)
        if q ∈ acc then acc else acc ++ [q]
      else acc) acc) []

/-- Convert every listed cell that is still grass to sand (the beach
application loops, which re-verify the tag before overwriting). -/
def applySand (ps : List (ℕ × ℕ)) (g : Grid) : Grid :=
  ps.foldl (fun g p =>
    if g p.1 p.2 = Terrain.grass then setCell g p.1 p.2 Terrain.sand else g) g

/-- The second-ring collection for ocean beaches: a grass cardinal neighbour
of a ring-1 cell joins when it has at least 3 sand cells in its 3×3
window. -/
def oceanSecondRing (n : ℕ) (g : Grid) (candidates : List (ℕ × ℕ)) :
    List (ℕ × ℕ) :=
  candidates.foldl (fun acc p =>
    offsets4.foldl (fun acc d =>
      if nbrIs n g p.1 p.2 d Terrain.grass then
        let q := (((p.1 : ℤ) + d.1).toNat, ((p.2 : ℤ) + d.2).toNat)
        if 3 ≤ countNbrs n g q.1 q.2 offsets9 Terrain.sand then
          if q ∈ acc then acc else acc ++ [q]
        else acc
      else acc) acc) []

/-- Stage D, `_add_consistent_beaches` (consumes no randomness). -/
def addConsistentBeaches (n : ℕ) (g : Grid) : Grid :=
  let ocean := oceanTiles n g
  let lakes := lakeTiles n g ocean
  let ring1 := grassNbrsOf n g ocean offsets9
  let g1 := applySand ring1 g
  let ring2 := oceanSecondRing n g1 ring1
  let g2 := applySand ring2 g1
  let lakeRing := grassNbrsOf n g2 lakes offsetsLakeBeach
  applySand lakeRing g2

/-- Interior cells (`range(1, n-1)` on both axes), y-major. -/
def interiorCells (n : ℕ) : List (ℕ × ℕ) :=
  (natRange 1 (n - 1)).flatMap (fun y => (natRange 1 (n - 1)).map (fun x => (x, y)))

/-- The erosion test of the Stage-E sand sweep on an interior sand cell:
remove stray sand, but never sand that touches water. -/
def isolatedSandTest (n : ℕ) (g : Grid) (x y : ℕ) : Bool :=
  let waterCount := countNbrs n g x y offsets8 Terrain.water
  let sandCount := countNbrs n g x y offsets8 Terrain.sand
  let grassCount := countNbrs n g x y offsets8 Terrain.grass
  let cardinalSand := countNbrs n g x y offsets4 Terrain.sand
  let shouldRemove :=
    (decide (sandCount ≤ 2) && decide (waterCount = 0)) ||
    (decide (cardinalSand = 0) && decide (0 < sandCount)) ||
    (decide (sandCount = 1) && decide (6 ≤ grassCount))
  if 0 < waterCount then false else shouldRemove

/-- The gap-filling test of the Stage-E grass sweep on an interior grass
cell: a majority of sand neighbours, or an L/U sand pattern. -/
def fillGrassTest (n : ℕ) (g : Grid) (x y : ℕ) : Bool :=
  let sandCount := countNbrs n g x y offsets8 Terrain.sand
  let sd := fun (d : ℤ × ℤ) => nbrIs n g x y d Terrain.sand
  if 5 ≤ sandCount then true
  else if 3 ≤ sandCount then
    (sd (0, -1) && sd (1, 0) && !sd (1, -1)) ||
    (sd (0, -1) && sd (-1, 0) && !sd (-1, -1)) ||
    (sd (0, 1) && sd (1, 0) && !sd (1, 1)) ||
    (sd (0, 1) && sd (-1, 0) && !sd (-1, 1))
  else false

/-- The Stage-E erosion sweep's target list (`isolated_sand`), computed in
full before any mutation. -/
def erodeTargets (n : ℕ) (g : Grid) : List (ℕ × ℕ) :=
  (interiorCells n).filter
    (fun p => decide (g p.1 p.2 = Terrain.sand) && isolatedSandTest n g p.1 p.2)

/-- Apply the erosion sweep: targeted sand reverts to grass. -/
def erodeApply (n : ℕ) (g : Grid) : Grid :=
  (erodeTargets n g).foldl (fun g p => setCell g p.1 p.2 Terrain.grass) g

/-- The Stage-E gap-filling sweep's target list (`isolated_grass`). -/
def fillTargets (n : ℕ) (g : Grid) : List (ℕ × ℕ) :=
  (interiorCells n).filter
    (fun p => decide (g p.1 p.2 = Terrain.grass) && fillGrassTest n g p.1 p.2)

/-- One Stage-E pass: erode stray sand, then fill sand gaps; each sweep's
target list is fully computed before any mutation. -/
def smoothPass (n : ℕ) (g : Grid) : Grid :=
  let g1 := erodeApply n g
  (fillTargets n g1).foldl (fun g p => setCell g p.1 p.2 Terrain.sand) g1

/-- Stage E, `_remove_isolated_tiles`: three smoothing passes. -/
def removeIsolatedTiles (n : ℕ) (g : Grid) : Grid :=
  smoothPass n (smoothPass n (smoothPass n g))

/-- Is some water cell within the 13×13 window centred at `(x, y)`?  (The
desert site test, `for dy in range(-6, 7): for dx in range(-6, 7)`.) -/
def waterNearby13 (n : ℕ) (g : Grid) (x y : ℕ) : Bool :=
  (List.range 13).any (fun j => (List.range 13).any (fun i =>
    nbrIs n g x y ((i : ℤ) - 6, (j : ℤ) - 6) Terrain.water))

/-- The desert site search: up to 50 attempts, each drawing an angle and a
radial distance (≤ 0.25·grid_size); the first in-bounds grass cell with no
water in its 13×13 window wins, otherwise the desert is skipped. -/
def findDesertStart (n : ℕ) (g : Grid) : ℕ → Rng → Option (ℕ × ℕ) × Rng
  | 0, r => (none, r)
  | att + 1, r =>
    let c : ℕ := n / 2
    let (a1, r1) := r.next
    let angle : ℚ := a1 * 2 * piQ
    let (d1, r2) := r1.next
    let dist : ℚ := d1 * (1 / 4) * (n : ℚ)
    let x : ℤ := pyInt ((c : ℚ) + dist * cosQ angle)
    let y : ℤ := pyInt ((c : ℚ) + dist * sinQ angle)
    if 0 ≤ x ∧ x < n ∧ 0 ≤ y ∧ y < n then
      if g x.toNat y.toNat = Terrain.grass ∧ waterNearby13 n g x.toNat y.toNat = false then
        (some (x.toNat, y.toNat), r2)
      else findDesertStart n g att r2
    else findDesertStart n g att r2

/-- The per-cell inclusion test of the desert blob: rotate the offset by
`rotation`, stretch by `(a, b)`, and compare the transformed distance plus
noise against `desert_size`; the raw draw `v` gives
`edge_noise = uniform(-1, 1) = -1 + 2 v`. -/
def desertCellTest (sx sy : ℕ) (a b rotation : ℚ) (size : ℤ) (p : ℕ × ℕ)
    (v : ℚ) : Bool :=
  let dx : ℚ := (p.1 : ℚ) - sx
  let dy : ℚ := (p.2 : ℚ) - sy
  let rx : ℚ := dx * cosQ rotation - dy * sinQ rotation
  let ry : ℚ := dx * sinQ rotation + dy * cosQ rotation
  let stx : ℚ := rx / a
  let sty : ℚ := ry / b
  let noise : ℚ := -1 + 2 * v
  sqrtLt (stx ^ 2 + sty ^ 2) ((size : ℚ) + noise)

/-- The desert bounding box (`max_radius = desert_size * 1.5`), y-major. -/
def desertBox (n : ℕ) (sx sy : ℕ) (size : ℤ) : List (ℕ × ℕ) :=
  let m : ℤ := pyInt ((size : ℚ) * (3 / 2))
  (intRangeN (max 0 ((sy : ℤ) - m)) (min (n : ℤ) ((sy : ℤ) + m + 1))).flatMap
    (fun y => (intRangeN (max 0 ((sx : ℤ) - m)) (min (n : ℤ) ((sx : ℤ) + m + 1))).map
      (fun x => (x, y)))

/-- Collect the desert cells; only grass cells consume a noise draw. -/
def collectDesertCells (n : ℕ) (g : Grid) (sx sy : ℕ) (a b rotation : ℚ)
    (size : ℤ) (r : Rng) : List (ℕ × ℕ) × Rng :=
  (desertBox n sx sy size).foldl (fun (acc : List (ℕ × ℕ) × Rng) p =>
    if g p.1 p.2 = Terrain.grass then
      let (v, r') := acc.2.next
      if desertCellTest sx sy a b rotation size p v then (acc.1 ++ [p], r')
      else (acc.1, r')
    else acc) ([], r)

/-- The desert gap-filling collection: a grass neighbour of a desert cell
with at least 5 of its own 3×3 window inside the desert set joins.  (Python
set semantics again; insertion order is irrelevant to the grid.) -/
def desertExtraCells (n : ℕ) (g : Grid) (desert : List (ℕ × ℕ)) :
    List (ℕ × ℕ) :=
  desert.foldl (fun acc p =>
    offsets9.foldl (fun acc d =>
      if nbrIs n g p.1 p.2 d Terrain.grass then
        let q := (((p.1 : ℤ) + d.1).toNat, ((p.2 : ℤ) + d.2).toNat)
        let cnt := (offsets9.filter (fun e =>
          let qx : ℤ := (q.1 : ℤ) + e.1
          let qy : ℤ := (q.2 : ℤ) + e.2
          decide (0 ≤ qx) && decide (qx < n) && decide (0 ≤ qy) &&
            decide (qy < n) && decide ((qx.toNat, qy.toNat) ∈ desert))).length
        if 5 ≤ cnt then (if q ∈ acc then acc else acc ++ [q]) else acc
      else acc) acc) []

/-- The desert-edge erosion test (`_smooth_desert_edges`, first sweep):
non-beach sand (no water anywhere in the 3×3 window) with at most 2 sand
neighbours reverts to grass. -/
def desertEdgeSandTest (n : ℕ) (g : Grid) (x y : ℕ) : Bool :=
  let isBeach := offsets9.any (fun d => nbrIs n g x y d Terrain.water)
  if isBeach then false
  else decide (countNbrs n g x y offsets8 Terrain.sand ≤ 2)

/-- The desert-edge fill test (second sweep): grass with at least 5
non-beach sand neighbours (sand having no adjacent water itself). -/
def desertEdgeGrassTest (n : ℕ) (g : Grid) (x y : ℕ) : Bool :=
  let cnt := (offsets8.filter (fun d =>
    nbrIs n g x y d Terrain.sand &&
      !(offsets9.any (fun e =>
        nbrIs n g ((x : ℤ) + d.1).toNat ((y : ℤ) + d.2).toNat e Terrain.water)))).length
  decide (5 ≤ cnt)

/-- The desert edge-smoothing erosion target list. -/
def desertErodeTargets (n : ℕ) (g : Grid) : List (ℕ × ℕ) :=
  (interiorCells n).filter
    (fun p => decide (g p.1 p.2 = Terrain.sand) && desertEdgeSandTest n g p.1 p.2)

/-- Apply the desert-edge erosion sweep. -/
def desertErodeApply (n : ℕ) (g : Grid) : Grid :=
  (desertErodeTargets n g).foldl (fun g p => setCell g p.1 p.2 Terrain.grass) g

/-- The desert edge-smoothing fill target list. -/
def desertFillTargets (n : ℕ) (g : Grid) : List (ℕ × ℕ) :=
  (interiorCells n).filter
    (fun p => decide (g p.1 p.2 = Terrain.grass) && desertEdgeGrassTest n g p.1 p.2)

/-- The desert edge-smoothing pass `_smooth_desert_edges`. -/
def smoothDesertEdges (n : ℕ) (g : Grid) : Grid :=
  let g1 := desertErodeApply n g
  (desertFillTargets n g1).foldl (fun g p => setCell g p.1 p.2 Terrain.sand) g1

/-- Stage F, `_add_smooth_desert`. -/
def addSmoothDesert (n : ℕ) (g : Grid) (r : Rng) : Grid × Rng :=
  let (size, r1) := r.randint 5 8
  match findDesertStart n g 50 r1 with
  | (none, r2) => (g, r2)
  | (some (sx, sy), r2) =>
    let (av, r3) := r2.uniform 1 (3 / 2)
    let (bv, r4) := r3.uniform 1 (3 / 2)
    let (rot, r5) := r4.uniform 0 piQ
    let (desert, r6) := collectDesertCells n g sx sy av bv rot size r5
    let g1 := desert.foldl (fun g p => setCell g p.1 p.2 Terrain.sand) g
    let extra := desertExtraCells n g1 desert
    let g2 := extra.foldl (fun g p => setCell g p.1 p.2 Terrain.sand) g1
    (smoothDesertEdges n g2, r6)

/-- The forest-centre collection: `num_forests` draws of an angle and a
radial distance (≤ 0.4·grid_size); a draw landing in bounds on grass also
draws a radius `randint(5, 9)` and becomes a forest centre `(fx, fy, R)`. -/
def pickForestCenters (n : ℕ) (g : Grid) :
    ℕ → Rng → List (ℕ × ℕ × ℤ) → List (ℕ × ℕ × ℤ) × Rng
  | 0, r, acc => (acc, r)
  | k + 1, r, acc =>
    let c : ℕ := n / 2
    let (a1, r1) := r.next
    let angle : ℚ := a1 * 2 * piQ
    let (d1, r2) := r1.next
    let dist : ℚ := d1 * (2 / 5) * (n : ℚ)
    let fx : ℤ := pyInt ((c : ℚ) + dist * cosQ angle)
    let fy : ℤ := pyInt ((c : ℚ) + dist * sinQ angle)
    if 0 ≤ fx ∧ fx < n ∧ 0 ≤ fy ∧ fy < n ∧ g fx.toNat fy.toNat = Terrain.grass then
      let (rad, r3) := r2.randint 5 9
      pickForestCenters n g k r3 (acc ++ [(fx.toNat, fy.toNat, rad)])
    else pickForestCenters n g k r2 acc

/-- Exact Boolean encoding of the tree roll
`random.random() < max(forest_influence * 0.95, 0.15)`, where
`forest_influence` is the maximum over centres within `1.5·R` of
`max(0, 1 - distance/R)`.  For raw draw `v` the comparison unfolds, over the
reals, to: `v < 0.15`, or some centre `(fx, fy, R)` satisfies both
`sqrt(d2) < 1.5·R` (the influence gate) and
`v < 0.95·(1 - sqrt(d2)/R)`, which since `R > 0` is the same inequality as
`sqrt(d2) < R·(1 - v/0.95)`.  When the right side is nonpositive `sqrtLt`
is false, agreeing with the `max(0, ·)` clamp because any `v < 0` already
satisfies the first disjunct `v < 0.15`. -/
def treeRoll (centers : List (ℕ × ℕ × ℤ)) (x y : ℕ) (v : ℚ) : Bool :=
  decide (v < 3 / 20) ||
    centers.any (fun c =>
      let d2 : ℚ := ((x : ℚ) - c.1) ^ 2 + ((y : ℚ) - c.2.1) ^ 2
      sqrtLt d2 ((c.2.2 : ℚ) * (3 / 2)) &&
        sqrtLt d2 ((c.2.2 : ℚ) * (1 - v / (19 / 20))))

/-- The near-water test for tree placement (3×3 window, centre included as
in the source). -/
def nearWater (n : ℕ) (g : Grid) (x y : ℕ) : Bool :=
  offsets9.any (fun d => nbrIs n g x y d Terrain.water)

/-- The tree sweep: every grass, unoccupied, not-near-water cell consumes
one draw and receives a tree when the roll succeeds. -/
def placeTrees (n : ℕ) (g : Grid) (centers : List (ℕ × ℕ × ℤ))
    (objs : ObjMap) (r : Rng) : ObjMap × Rng :=
  (cells n).foldl (fun (acc : ObjMap × Rng) p =>
    if g p.1 p.2 = Terrain.grass ∧ acc.1.all (fun e => !decide (e.1 = p)) then
      if nearWater n g p.1 p.2 then acc
      else
        let (v, r') := acc.2.next
        if treeRoll centers p.1 p.2 v then (acc.1 ++ [(p, ObjKind.tree)], r')
        else (acc.1, r')
    else acc) (objs, r)

/-- The rock-eligible cells: inside the 5-cell margin, not water, not
occupied, and grass or sand, in scan order. -/
def availableSpots (n : ℕ) (g : Grid) (objs : ObjMap) : List (ℕ × ℕ) :=
  ((natRange 5 (n - 5)).flatMap (fun y =>
    (natRange 5 (n - 5)).map (fun x => (x, y)))).filter
    (fun p =>
      !(decide (g p.1 p.2 = Terrain.water) || objs.any (fun e => decide (e.1 = p))) &&
        (decide (g p.1 p.2 = Terrain.grass) || decide (g p.1 p.2 = Terrain.sand)))

/-- Quadrant bucketing of the eligible cells by the map midlines.  The
source assigns each spot to exactly one quadrant by an if/elif chain while
scanning the spot list, which yields exactly these four filters. -/
def quadrantsOf (n : ℕ) (spots : List (ℕ × ℕ)) : List (List (ℕ × ℕ)) :=
  let mid : ℕ := n / 2
  [spots.filter (fun p => decide (p.1 < mid) && decide (p.2 < mid)),
   spots.filter (fun p => decide (mid ≤ p.1) && decide (p.2 < mid)),
   spots.filter (fun p => decide (p.1 < mid) && decide (mid ≤ p.2)),
   spots.filter (fun p => decide (mid ≤ p.1) && decide (mid ≤ p.2))]

/-- `ROCK_COUNT` from `config.py`. -/
def rockCount : ℕ := 3

/-- The first phase of rock selection: one `random.choice` from each of the
first (up to `ROCK_COUNT`) non-empty quadrants. -/
def rockFirstPicks (spots : List (ℕ × ℕ)) (n : ℕ) (r : Rng) :
    List (ℕ × ℕ) × Rng :=
  (((quadrantsOf n spots).filter (fun q => !q.isEmpty)).take rockCount).foldl
    (fun (acc : List (ℕ × ℕ) × Rng) q =>
      let (pos, r') := acc.2.choice q (0, 0)
      (acc.1 ++ [pos], r')) ([], r)

/-- The full rock position selection: the quadrant picks, then — when quota
remains and spots remain — a shuffled draw from the spots not yet picked. -/
def rockPositions (spots : List (ℕ × ℕ)) (n : ℕ) (r : Rng) :
    List (ℕ × ℕ) × Rng :=
  let fp := rockFirstPicks spots n r
  let remaining := spots.filter (fun p => decide (p ∉ fp.1))
  let additionalNeeded : ℕ := rockCount - fp.1.length
  if 0 < additionalNeeded ∧ remaining.isEmpty = false then
    let sh := fp.2.shuffle remaining
    (fp.1 ++ sh.1.take additionalNeeded, sh.2)
  else fp

/-- Stage-G rock placement: nothing when no spot is eligible, otherwise the
selected positions each receive a `Rock`. -/
def placeRocks (n : ℕ) (g : Grid) (objs : ObjMap) (r : Rng) : ObjMap × Rng :=
  let spots := availableSpots n g objs
  if spots.isEmpty then (objs, r)
  else
    let ps := rockPositions spots n r
    (ps.1.foldl (fun o p => o ++ [(p, ObjKind.rock)]) objs, ps.2)

/-- Stage G, `_add_trees_and_rocks`. -/
def addTreesAndRocks (n : ℕ) (g : Grid) (objs : ObjMap) (r : Rng) :
    ObjMap × Rng :=
  let (numForests, r1) := r.randint 3 5
  let (centers, r2) := pickForestCenters n g numForests.toNat r1 []
  let (objs1, r3) := placeTrees n g centers objs r2
  placeRocks n g objs1 r3

/-- The result of `generate_map`: the final grid, the object dictionary and
the returned pixel extent. -/
structure GenResult where
  grid : Grid
  objs : ObjMap
  dims : ℤ × ℤ

/-- `generate_map(tile_size)`: the eight-stage pipeline.  `gridSize` is the
constructor argument `grid_size`, an arbitrary integer; for a nonpositive
size every loop range is empty and every bounds check fails, exactly as with
Python's negative ranges, which the clamp `gridSize.toNat = 0` reproduces. -/
def generateMap (gridSize tileSize : ℤ) (r : Rng) : GenResult :=
  let n := gridSize.toNat
  let g0 := createWaterBase n
  let gr1 := createMainIsland n g0 r
  let gr2 := addLakes n gr1.1 gr1.2
  let g3 := addConsistentBeaches n gr2.1
  let g4 := removeIsolatedTiles n g3
  let gr5 := addSmoothDesert n g4 gr2.2
  let objs6 := addTreesAndRocks n gr5.1 [] gr5.2
  { grid := gr5.1, objs := objs6.1,
    dims := (gridSize * tileSize, gridSize * tileSize) }

/-! ### Basic lemmas about the embedding's primitives -/

theorem setCell_self (g : Grid) (x y : ℕ) (t : Terrain) : setCell g x y t x y = t := by
  simp [setCell]

theorem setCell_ne (g : Grid) (x y : ℕ) (t : Terrain) (a b : ℕ)
    (h : ¬(a = x ∧ b = y)) : setCell g x y t a b = g a b := by
  simp only [setCell, if_neg h]

theorem mem_cells {n : ℕ} {p : ℕ × ℕ} : p ∈ cells n ↔ p.1 < n ∧ p.2 < n := by
  cases p with
  | mk x y =>
    simp only [cells, List.mem_flatMap, List.mem_map, List.mem_range, Prod.mk.injEq]
    constructor
    · rintro ⟨y', hy', x', hx', hxx, hyy⟩
      exact ⟨hxx ▸ hx', hyy ▸ hy'⟩
    · rintro ⟨hx, hy⟩
      exact ⟨y, hy, x, hx, rfl, rfl⟩

theorem cells_nodup (n : ℕ) : (cells n).Nodup := by
  refine List.nodup_flatMap.2 ⟨fun y _ => ?_, ?_⟩
  · exact (List.nodup_range n).map (fun a b h => by simpa using congrArg Prod.fst h)
  · refine List.Pairwise.imp ?_ (List.nodup_range n)
    intro a b hab
    simp only [Function.onFun, List.disjoint_left]
    rintro ⟨x, y⟩ hx hy
    simp only [List.mem_map, List.mem_range, Prod.mk.injEq] at hx hy
    obtain ⟨_, _, _, h1⟩ := hx
    obtain ⟨_, _, _, h2⟩ := hy
    exact hab (h1.trans h2.symm)

theorem foldl_setCell_const (t : Terrain) :
    ∀ (ps : List (ℕ × ℕ)) (g : Grid) (a b : ℕ),
      (ps.foldl (fun g p => setCell g p.1 p.2 t) g) a b =
        if (a, b) ∈ ps then t else g a b := by
  intro ps
  induction ps with
  | nil => intro g a b; simp
  | cons q rest ih =>
    obtain ⟨qx, qy⟩ := q
    intro g a b
    rw [List.foldl_cons, ih]
    by_cases hr : (a, b) ∈ rest
    · simp [hr]
    · by_cases hq : a = qx ∧ b = qy
      · obtain ⟨h1, h2⟩ := hq
        subst h1; subst h2
        simp [hr, setCell_self]
      · have hpair : ¬(a, b) = (qx, qy) := by
          intro h
          exact hq ⟨congrArg Prod.fst h, congrArg Prod.snd h⟩
        simp [hr, hpair, setCell_ne _ _ _ _ _ _ hq]

theorem applySand_cell (ps : List (ℕ × ℕ)) (g : Grid) (a b : ℕ) :
    applySand ps g a b =
      if (a, b) ∈ ps ∧ g a b = Terrain.grass then Terrain.sand else g a b := by
  induction ps generalizing g with
  | nil => simp [applySand]
  | cons q rest ih =>
    obtain ⟨qx, qy⟩ := q
    have hstep : applySand ((qx, qy) :: rest) g = applySand rest
        (if g qx qy = Terrain.grass then setCell g qx qy Terrain.sand else g) := rfl
    rw [hstep, ih]
    by_cases hq : a = qx ∧ b = qy
    · obtain ⟨h1, h2⟩ := hq
      subst h1; subst h2
      by_cases hg : g a b = Terrain.grass
      · simp [hg, setCell_self]
      · simp [hg]
    · have hpair : ¬(a, b) = (qx, qy) := by
        intro h
        exact hq ⟨congrArg Prod.fst h, congrArg Prod.snd h⟩
      by_cases hg : g qx qy = Terrain.grass
      · rw [if_pos hg]
        rw [setCell_ne _ _ _ _ _ _ hq]
        by_cases hr : (a, b) ∈ rest
        · simp [hr, hpair]
        · simp [hr, hpair]
      · rw [if_neg hg]
        by_cases hr : (a, b) ∈ rest
        · simp [hr, hpair]
        · simp [hr, hpair]

/-! ### The cell-sweep combinator: characterization lemmas -/

/-- Position of the first occurrence of a cell in a sweep list: the number
of draws consumed before the sweep reaches that cell. -/
def cellIdx (p : ℕ × ℕ) : List (ℕ × ℕ) → ℕ
  | [] => 0
  | q :: rest => if p = q then 0 else cellIdx p rest + 1

theorem cellIdx_cons_self (p : ℕ × ℕ) (rest : List (ℕ × ℕ)) :
    cellIdx p (p :: rest) = 0 := by
  simp [cellIdx]

theorem cellIdx_cons_ne (p q : ℕ × ℕ) (rest : List (ℕ × ℕ)) (h : p ≠ q) :
    cellIdx p (q :: rest) = cellIdx p rest + 1 := by
  simp [cellIdx, h]

theorem scanCells_vals (f : ℕ × ℕ → ℚ → Terrain → Terrain) :
    ∀ (ps : List (ℕ × ℕ)) (g : Grid) (r : Rng),
      (scanCells f ps g r).2.vals = r.vals ∧
        (scanCells f ps g r).2.idx = r.idx + ps.length := by
  intro ps
  induction ps with
  | nil => intro g r; exact ⟨rfl, rfl⟩
  | cons q rest ih =>
    intro g r
    have h := ih (setCell g q.1 q.2 (f q (r.vals r.idx) (g q.1 q.2))) ⟨r.vals, r.idx + 1⟩
    refine ⟨h.1, ?_⟩
    show (scanCells f rest (setCell g q.1 q.2 (f q (r.vals r.idx) (g q.1 q.2)))
      ⟨r.vals, r.idx + 1⟩).2.idx = r.idx + (q :: rest).length
    rw [h.2]
    simp [List.length_cons]
    omega

theorem scanCells_cell_ne (f : ℕ × ℕ → ℚ → Terrain → Terrain) :
    ∀ (ps : List (ℕ × ℕ)) (g : Grid) (r : Rng) (a b : ℕ), (a, b) ∉ ps →
      (scanCells f ps g r).1 a b = g a b := by
  intro ps
  induction ps with
  | nil => intro g r a b _; rfl
  | cons q rest ih =>
    intro g r a b hab
    have hq : (a, b) ≠ q := fun h => hab (h ▸ List.mem_cons_self q rest)
    have hr : (a, b) ∉ rest := fun h => hab (List.mem_cons_of_mem q h)
    have hne : ¬(a = q.1 ∧ b = q.2) := by
      rintro ⟨h1, h2⟩
      exact hq (by cases q; simp_all)
    calc (scanCells f (q :: rest) g r).1 a b
        = setCell g q.1 q.2 (f q (r.vals r.idx) (g q.1 q.2)) a b := ih _ _ a b hr
      _ = g a b := setCell_ne _ _ _ _ _ _ hne

theorem scanCells_cell_mem (f : ℕ × ℕ → ℚ → Terrain → Terrain) :
    ∀ (ps : List (ℕ × ℕ)), ps.Nodup → ∀ (g : Grid) (r : Rng) (a b : ℕ),
      (a, b) ∈ ps →
      (scanCells f ps g r).1 a b =
        f (a, b) (r.vals (r.idx + cellIdx (a, b) ps)) (g a b) := by
  intro ps
  induction ps with
  | nil => intro _ g r a b h; cases h
  | cons q rest ih =>
    intro hnd g r a b hab
    have hq := List.nodup_cons.1 hnd
    by_cases he : (a, b) = q
    · subst he
      have : (scanCells f ((a, b) :: rest) g r).1 a b =
          setCell g a b (f (a, b) (r.vals r.idx) (g a b)) a b :=
        scanCells_cell_ne f rest _ _ a b hq.1
      rw [this, setCell_self, cellIdx_cons_self]
      simp
    · have hr : (a, b) ∈ rest := by
        rcases List.mem_cons.1 hab with h | h
        · exact absurd h he
        · exact h
      have hne : ¬(a = q.1 ∧ b = q.2) := by
        rintro ⟨h1, h2⟩
        exact he (by cases q; simp_all)
      have hstep : (scanCells f (q :: rest) g r).1 a b =
          (scanCells f rest (setCell g q.1 q.2 (f q (r.vals r.idx) (g q.1 q.2)))
            ⟨r.vals, r.idx + 1⟩).1 a b := rfl
      rw [hstep, ih hq.2 _ _ a b hr, setCell_ne _ _ _ _ _ _ hne]
      rw [cellIdx_cons_ne _ _ _ he]
      ring_nf

/-! ### Stage A and Stage B: pointwise characterizations -/

theorem createWaterBase_cell (n a b : ℕ) : createWaterBase n a b = Terrain.water := by
  rw [createWaterBase, foldl_setCell_const]
  split <;> rfl

theorem createMainIsland_cell (n : ℕ) (g : Grid) (r : Rng) (a b : ℕ)
    (ha : a < n) (hb : b < n) :
    (createMainIsland n g r).1 a b =
      islandCellStep n (a, b) (r.vals (r.idx + cellIdx (a, b) (cells n))) (g a b) :=
  scanCells_cell_mem _ _ (cells_nodup n) _ _ _ _ (mem_cells.2 ⟨ha, hb⟩)

theorem stageB_cell (n : ℕ) (r : Rng) (a b : ℕ) (ha : a < n) (hb : b < n) :
    (createMainIsland n (createWaterBase n) r).1 a b =
      (if sqrtLt (((a : ℚ) - (n / 2 : ℕ)) ^ 2 + ((b : ℚ) - (n / 2 : ℕ)) ^ 2)
          ((islandRadius n : ℚ) +
            (-(3 / 2) + 3 * r.vals (r.idx + cellIdx (a, b) (cells n))))
        then Terrain.grass else Terrain.water) := by
  rw [createMainIsland_cell n _ r a b ha hb, islandCellStep, createWaterBase_cell]

/-- The Stage-B rule as the specification words it: the Euclidean distance
to the centre plus the noise draw is less than `grid_size × 0.4`
(`distance + noise < island_radius`, i.e. over the reals
`distance < island_radius - noise`). -/
def specIslandCond (n : ℕ) (p : ℕ × ℕ) (v : ℚ) : Bool :=
  let c : ℕ := n / 2
  let d2 : ℚ := ((p.1 : ℚ) - c) ^ 2 + ((p.2 : ℚ) - c) ^ 2
  let noise : ℚ := -(3 / 2) + 3 * v
  sqrtLt d2 ((n : ℚ) * islandRadiusFactor - noise)

/-! ### Stage C: pointwise evolution and the per-lake frame -/

/-- Pointwise evolution produced by the lake sweeps: every cell is either
unchanged, or was grass and has become water. -/
def LakeEvolves (g g' : Grid) : Prop :=
  ∀ a b, g' a b = g a b ∨ (g a b = Terrain.grass ∧ g' a b = Terrain.water)

theorem lakeEvolves_refl (g : Grid) : LakeEvolves g g := fun _ _ => Or.inl rfl

theorem lakeEvolves_trans {g g' g'' : Grid} (h1 : LakeEvolves g g')
    (h2 : LakeEvolves g' g'') : LakeEvolves g g'' := by
  intro a b
  rcases h2 a b with h2e | ⟨h2g, h2w⟩
  · rcases h1 a b with h1e | ⟨h1g, h1w⟩
    · exact Or.inl (h2e.trans h1e)
    · exact Or.inr ⟨h1g, h2e.trans h1w⟩
  · rcases h1 a b with h1e | ⟨h1g, h1w⟩
    · exact Or.inr ⟨h1e.symm.trans h2g, h2w⟩
    · rw [h1w] at h2g
      cases h2g

theorem lakeCellStep_cases (lX lY lR : ℤ) (p : ℕ × ℕ) (v : ℚ) (t : Terrain) :
    lakeCellStep lX lY lR p v t = t ∨
      (t = Terrain.grass ∧ lakeCellStep lX lY lR p v t = Terrain.water) := by
  simp only [lakeCellStep]
  split
  · split
    · next ht => exact Or.inr ⟨ht, rfl⟩
    · exact Or.inl rfl
  · exact Or.inl rfl

theorem scanCells_lakeEvolves (lX lY lR : ℤ) :
    ∀ (ps : List (ℕ × ℕ)) (g : Grid) (r : Rng),
      LakeEvolves g (scanCells (lakeCellStep lX lY lR) ps g r).1 := by
  intro ps
  induction ps with
  | nil => intro g r; exact lakeEvolves_refl g
  | cons q rest ih =>
    obtain ⟨qx, qy⟩ := q
    intro g r
    have hstep : LakeEvolves g
        (setCell g qx qy (lakeCellStep lX lY lR (qx, qy) (r.vals r.idx) (g qx qy))) := by
      intro a b
      by_cases hq : a = qx ∧ b = qy
      · obtain ⟨h1, h2⟩ := hq
        rw [h1, h2, setCell_self]
        exact lakeCellStep_cases lX lY lR (qx, qy) (r.vals r.idx) (g qx qy)
      · rw [setCell_ne _ _ _ _ _ _ hq]
        exact Or.inl rfl
    exact lakeEvolves_trans hstep (ih _ _)

theorem addOneLake_lakeEvolves (n : ℕ) (gr : Grid × Rng) :
    LakeEvolves gr.1 (addOneLake n gr).1 := by
  unfold addOneLake
  exact scanCells_lakeEvolves _ _ _ _ _ _

theorem foldl_addOneLake_lakeEvolves (n : ℕ) :
    ∀ (l : List ℕ) (gr : Grid × Rng),
      LakeEvolves gr.1 (l.foldl (fun gr _ => addOneLake n gr) gr).1 := by
  intro l
  induction l with
  | nil => intro gr; exact lakeEvolves_refl _
  | cons u rest ih =>
    intro gr
    rw [List.foldl_cons]
    exact lakeEvolves_trans (addOneLake_lakeEvolves n gr) (ih _)

theorem addLakes_lakeEvolves (n : ℕ) (g : Grid) (r : Rng) :
    LakeEvolves g (addLakes n g r).1 := by
  show LakeEvolves g ((List.range ((r.randint 1 2).1.toNat)).foldl
    (fun gr _ => addOneLake n gr) (g, (r.randint 1 2).2)).1
  exact foldl_addOneLake_lakeEvolves n _ _

/-- `randint(a, b)` always lands in `[a, b]` when `a ≤ b`. -/
theorem randint_range (r : Rng) (a b : ℤ) (hab : a ≤ b) :
    a ≤ (r.randint a b).1 ∧ (r.randint a b).1 ≤ b := by
  have hfst : (r.randint a b).1 =
      a + (natBelow (r.vals r.idx) (b - a + 1).toNat : ℤ) := rfl
  rw [hfst]
  have h1 : natBelow (r.vals r.idx) (b - a + 1).toNat ≤ (b - a + 1).toNat - 1 :=
    min_le_right _ _
  omega

/-! ### Nodup facts for sweep lists -/

theorem intRangeN_nodup (lo hi : ℤ) (hlo : 0 ≤ lo) : (intRangeN lo hi).Nodup := by
  have hinj : ∀ i j : ℕ, (lo + (i : ℤ)).toNat = (lo + (j : ℤ)).toNat → i = j := by
    intro i j hij
    omega
  exact (List.nodup_range _).map (fun a b h => hinj a b h)

theorem rect_nodup (xs ys : List ℕ) (hx : xs.Nodup) (hy : ys.Nodup) :
    (ys.flatMap (fun y => xs.map (fun x => (x, y)))).Nodup := by
  refine List.nodup_flatMap.2 ⟨fun y _ => ?_, ?_⟩
  · exact hx.map (fun a b h => by simpa using congrArg Prod.fst h)
  · refine List.Pairwise.imp ?_ hy
    intro a b hab
    simp only [Function.onFun, List.disjoint_left]
    rintro ⟨x, y⟩ hmx hmy
    simp only [List.mem_map, Prod.mk.injEq] at hmx hmy
    obtain ⟨_, _, _, h1⟩ := hmx
    obtain ⟨_, _, _, h2⟩ := hmy
    exact hab (h1.trans h2.symm)

theorem lakeBox_nodup (n : ℕ) (lX lY lR : ℤ) : (lakeBox n lX lY lR).Nodup :=
  rect_nodup _ _ (intRangeN_nodup _ _ (le_max_left 0 _))
    (intRangeN_nodup _ _ (le_max_left 0 _))

/-! ### The claims about Stages B and C -/

/-- C8: Stage C sets a cell to water only when it is currently grass and
lies within a lake's noised radius, and existing water is never overwritten.
Conjunct 1 is the global pointwise frame of `_add_lakes`: every cell is
unchanged or goes Grass→Water (in particular water cells stay water).
Conjunct 2: the drawn lake radius always lies in [3, 6].
Conjunct 3 characterizes one lake's bounding-box sweep: a box cell is
rewritten by the grass/noised-radius rule `lakeCellStep` applied to the
draw that cell consumes, and every cell outside the box is untouched — so
no cell outside every lake's noised radius changes. -/
theorem c8_lakes_frame :
    (∀ (n : ℕ) (g : Grid) (r : Rng) (a b : ℕ),
        (addLakes n g r).1 a b = g a b ∨
          (g a b = Terrain.grass ∧ (addLakes n g r).1 a b = Terrain.water)) ∧
    (∀ r : Rng, 3 ≤ (r.randint 3 6).1 ∧ (r.randint 3 6).1 ≤ 6) ∧
    (∀ (n : ℕ) (lX lY lR : ℤ) (g : Grid) (r : Rng) (a b : ℕ),
        ((a, b) ∈ lakeBox n lX lY lR →
          (scanCells (lakeCellStep lX lY lR) (lakeBox n lX lY lR) g r).1 a b =
            lakeCellStep lX lY lR (a, b)
              (r.vals (r.idx + cellIdx (a, b) (lakeBox n lX lY lR))) (g a b)) ∧
        ((a, b) ∉ lakeBox n lX lY lR →
          (scanCells (lakeCellStep lX lY lR) (lakeBox n lX lY lR) g r).1 a b =
            g a b)) := by
  refine ⟨fun n g r a b => ?_, fun r => randint_range r 3 6 (by norm_num), ?_⟩
  · rcases addLakes_lakeEvolves n g r a b with h | h
    · exact Or.inl h
    · exact Or.inr h
  · intro n lX lY lR g r a b
    exact ⟨fun hm => scanCells_cell_mem _ _ (lakeBox_nodup n lX lY lR) g r a b hm,
      fun hm => scanCells_cell_ne _ _ g r a b hm⟩

/-- Witness for C8 at a concrete input: grid size 5, lake at (2,2) with
radius 1, zero stream; the cell (0,0) lies outside the bounding box and is
untouched, and the box cell (2,2) is rewritten by the per-cell rule. -/
theorem c8_lakes_frame_witness :
    ((2, 2) ∈ lakeBox 5 2 2 1) ∧
      ((scanCells (lakeCellStep 2 2 1) (lakeBox 5 2 2 1) blankGrid ⟨fun _ => 0, 0⟩).1 2 2 =
        lakeCellStep 2 2 1 (2, 2)
          ((fun _ => (0 : ℚ)) (0 + cellIdx (2, 2) (lakeBox 5 2 2 1)))
          (blankGrid 2 2)) ∧
    ((0, 0) ∉ lakeBox 5 2 2 1) ∧
      ((scanCells (lakeCellStep 2 2 1) (lakeBox 5 2 2 1) blankGrid ⟨fun _ => 0, 0⟩).1 0 0 =
        blankGrid 0 0) := by
  have hmem : (2, 2) ∈ lakeBox 5 2 2 1 := by decide
  have hnot : (0, 0) ∉ lakeBox 5 2 2 1 := by decide
  exact ⟨hmem,
    (c8_lakes_frame.2.2 5 2 2 1 blankGrid ⟨fun _ => 0, 0⟩ 2 2).1 hmem,
    hnot,
    (c8_lakes_frame.2.2 5 2 2 1 blankGrid ⟨fun _ => 0, 0⟩ 0 0).2 hnot⟩

/-- C6 counterexample: with grid size 6 and the constant stream 5/6 (so the
noise draw is +1), cell (1, 3) has distance 2 to the centre (3, 3);
`2 < int(6·0.4) + 1 = 3` makes the code turn it to Grass, while the claim's
rule `distance + noise < 6·0.4` is false there (`3 < 2.4` fails): the code
adds the noise to the radius, not to the distance. -/
theorem c6_counterexample :
    (createMainIsland 6 (createWaterBase 6) ⟨fun _ => 5 / 6, 0⟩).1 1 3 =
        Terrain.grass ∧
      specIslandCond 6 (1, 3) (5 / 6) = false := by
  constructor
  · rw [stageB_cell 6 ⟨fun _ => 5 / 6, 0⟩ 1 3 (by norm_num) (by norm_num)]
    have hrad : (islandRadius 6 : ℚ) = 2 := by
      norm_num [islandRadius, islandRadiusFactor, pyInt]
    rw [if_pos]
    simp only [sqrtLt, Bool.and_eq_true, decide_eq_true_eq, hrad]
    norm_num
  · simp only [specIslandCond, sqrtLt, islandRadiusFactor]
    have h2 : ¬((((1, 3) : ℕ × ℕ).1 : ℚ) - ((6 / 2 : ℕ) : ℚ)) ^ 2 +
        ((((1, 3) : ℕ × ℕ).2 : ℚ) - ((6 / 2 : ℕ) : ℚ)) ^ 2 <
        ((6 : ℚ) * (0.4 : ℚ) - (-(3 / 2) + 3 * (5 / 6))) ^ 2 := by
      norm_num
    simp [h2]
    intro h3
    norm_num

/-- C6 (amended): in Stage B, a cell becomes Grass exactly when its
Euclidean distance to the centre is less than
`int(grid_size × 0.4) + edge_noise` — the noise draw is added to the island
radius — and every other cell remains Water. -/
theorem c6_island_rule (n : ℕ) (r : Rng) (a b : ℕ) (ha : a < n) (hb : b < n) :
    (createMainIsland n (createWaterBase n) r).1 a b =
      (if sqrtLt (((a : ℚ) - (n / 2 : ℕ)) ^ 2 + ((b : ℚ) - (n / 2 : ℕ)) ^ 2)
          ((islandRadius n : ℚ) +
            (-(3 / 2) + 3 * r.vals (r.idx + cellIdx (a, b) (cells n))))
        then Terrain.grass else Terrain.water) :=
  stageB_cell n r a b ha hb

/-- Witness for C6 at a concrete input. -/
theorem c6_island_rule_witness :
    1 < 6 ∧ 3 < 6 ∧
      ((createMainIsland 6 (createWaterBase 6) ⟨fun _ => 0, 0⟩).1 1 3 =
        (if sqrtLt (((1 : ℚ) - ((6 / 2 : ℕ) : ℚ)) ^ 2 + ((3 : ℚ) - ((6 / 2 : ℕ) : ℚ)) ^ 2)
            ((islandRadius 6 : ℚ) +
              (-(3 / 2) + 3 * (fun _ => (0 : ℚ)) (0 + cellIdx (1, 3) (cells 6))))
          then Terrain.grass else Terrain.water)) :=
  ⟨by norm_num, by norm_num,
    c6_island_rule 6 ⟨fun _ => 0, 0⟩ 1 3 (by norm_num) (by norm_num)⟩

/-- C9: with grid size 20, after Stage A all 400 cells are Water; after
Stage B the centre cell (10, 10) is Grass for every well-formed stream: its
distance to the centre is 0, below `8 + noise` for every noise draw in
[-1.5, 1.5]. -/
theorem c9_initial_scenario (r : Rng) (hr : r.WF) :
    (∀ a b : ℕ, a < 20 → b < 20 → createWaterBase 20 a b = Terrain.water) ∧
      (createMainIsland 20 (createWaterBase 20) r).1 10 10 = Terrain.grass := by
  refine ⟨fun a b _ _ => createWaterBase_cell 20 a b, ?_⟩
  rw [stageB_cell 20 r 10 10 (by norm_num) (by norm_num)]
  have hv := (hr (r.idx + cellIdx (10, 10) (cells 20))).1
  have hrad : (islandRadius 20 : ℚ) = 8 := by
    norm_num [islandRadius, islandRadiusFactor, pyInt]
  have h1 : (0 : ℚ) < (islandRadius 20 : ℚ) +
      (-(3 / 2) + 3 * r.vals (r.idx + cellIdx (10, 10) (cells 20))) := by
    rw [hrad]
    nlinarith
  rw [if_pos]
  simp only [sqrtLt, Bool.and_eq_true, decide_eq_true_eq]
  refine ⟨h1, ?_⟩
  have hd2 : (((10 : ℕ) : ℚ) - ((20 / 2 : ℕ) : ℚ)) ^ 2 +
      (((10 : ℕ) : ℚ) - ((20 / 2 : ℕ) : ℚ)) ^ 2 = 0 := by norm_num
  rw [hd2]
  exact pow_pos h1 2

/-- Witness for C9 with the zero stream. -/
theorem c9_initial_scenario_witness :
    Rng.WF ⟨fun _ => 0, 0⟩ ∧
      ((∀ a b : ℕ, a < 20 → b < 20 → createWaterBase 20 a b = Terrain.water) ∧
        (createMainIsland 20 (createWaterBase 20) ⟨fun _ => 0, 0⟩).1 10 10 =
          Terrain.grass) := by
  have hwf : Rng.WF ⟨fun _ => 0, 0⟩ := fun i => by norm_num
  exact ⟨hwf, c9_initial_scenario ⟨fun _ => 0, 0⟩ hwf⟩

/-! ### Stage D: the ocean/lake flood-fill classification (C4) -/

/-- The specification's one-step relation of the 4-connected flood fill:
`q` is an in-bounds cardinal neighbour of `p` carrying water. -/
def OceanStep (n : ℕ) (g : Grid) (p q : ℕ × ℕ) : Prop :=
  ∃ d ∈ ([(0, -1), (-1, 0), (1, 0), (0, 1)] : List (ℤ × ℤ)),
    ((q.1 : ℤ) = (p.1 : ℤ) + d.1 ∧ (q.2 : ℤ) = (p.2 : ℤ) + d.2) ∧
      q.1 < n ∧ q.2 < n ∧ g q.1 q.2 = Terrain.water

/-- 4-connected reachability through contiguous water from the ocean
seeds. -/
inductive OceanReach (n : ℕ) (g : Grid) : ℕ × ℕ → Prop
  | seed : ∀ p, p ∈ oceanSeeds n g → OceanReach n g p
  | step : ∀ p q, OceanReach n g p → OceanStep n g p q → OceanReach n g q

/-- Membership in the flood-candidate list: either the centre offset (the
popped cell itself, kept by the source's loop) or a genuine cardinal
step. -/
theorem floodCandidates_char {n : ℕ} {g : Grid} {p q : ℕ × ℕ} :
    q ∈ floodCandidates n g p ↔
      ((q = p ∧ p.1 < n ∧ p.2 < n ∧ g p.1 p.2 = Terrain.water) ∨
        OceanStep n g p q) := by
  obtain ⟨px, py⟩ := p
  obtain ⟨qx, qy⟩ := q
  constructor
  · intro hq
    simp only [floodCandidates, List.mem_map, List.mem_filter] at hq
    obtain ⟨d, ⟨hdmem, hnbr⟩, hqe⟩ := hq
    simp only [nbrIs, Bool.and_eq_true, decide_eq_true_eq] at hnbr
    obtain ⟨⟨⟨⟨h0x, hxn⟩, h0y⟩, hyn⟩, hw⟩ := hnbr
    obtain ⟨hqe1, hqe2⟩ := Prod.mk.injEq .. ▸ hqe
    simp only [floodOffsets, List.mem_cons, List.not_mem_nil, or_false] at hdmem
    rcases hdmem with rfl | rfl | rfl | rfl | rfl
    · refine Or.inr ⟨(0, -1), by norm_num, ⟨by omega, by omega⟩, by omega, by omega, ?_⟩
      have e1 : ((px : ℤ) + 0).toNat = qx := by omega
      have e2 : ((py : ℤ) + -1).toNat = qy := by omega
      rw [e1, e2] at hw
      exact hw
    · refine Or.inr ⟨(-1, 0), by norm_num, ⟨by omega, by omega⟩, by omega, by omega, ?_⟩
      have e1 : ((px : ℤ) + -1).toNat = qx := by omega
      have e2 : ((py : ℤ) + 0).toNat = qy := by omega
      rw [e1, e2] at hw
      exact hw
    · refine Or.inl ⟨?_, by omega, by omega, ?_⟩
      · simp only [Prod.mk.injEq]
        constructor <;> omega
      · have e1 : ((px : ℤ) + 0).toNat = px := by omega
        have e2 : ((py : ℤ) + 0).toNat = py := by omega
        rw [e1, e2] at hw
        exact hw
    · refine Or.inr ⟨(1, 0), by norm_num, ⟨by omega, by omega⟩, by omega, by omega, ?_⟩
      have e1 : ((px : ℤ) + 1).toNat = qx := by omega
      have e2 : ((py : ℤ) + 0).toNat = qy := by omega
      rw [e1, e2] at hw
      exact hw
    · refine Or.inr ⟨(0, 1), by norm_num, ⟨by omega, by omega⟩, by omega, by omega, ?_⟩
      have e1 : ((px : ℤ) + 0).toNat = qx := by omega
      have e2 : ((py : ℤ) + 1).toNat = qy := by omega
      rw [e1, e2] at hw
      exact hw
  · intro hq
    simp only [floodCandidates, List.mem_map, List.mem_filter]
    rcases hq with ⟨hqp, hn1, hn2, hw⟩ | ⟨d, hdmem, ⟨hq1, hq2⟩, hqn1, hqn2, hwq⟩
    · obtain ⟨hqp1, hqp2⟩ := Prod.mk.injEq .. ▸ hqp
      refine ⟨(0, 0), ⟨by simp [floodOffsets], ?_⟩, ?_⟩
      · simp only [nbrIs, Bool.and_eq_true, decide_eq_true_eq]
        refine ⟨⟨⟨⟨by omega, by omega⟩, by omega⟩, by omega⟩, ?_⟩
        have e1 : ((px : ℤ) + 0).toNat = px := by omega
        have e2 : ((py : ℤ) + 0).toNat = py := by omega
        rw [e1, e2]
        exact hw
      · simp only [Prod.mk.injEq]
        constructor <;> omega
    · simp only [List.mem_cons, List.not_mem_nil, or_false] at hdmem
      have hstep : ∀ dx dy : ℤ, d = (dx, dy) →
          (qx : ℤ) = (px : ℤ) + dx → (qy : ℤ) = (py : ℤ) + dy →
          (dx, dy) ∈ floodOffsets →
          ∃ e, (e ∈ floodOffsets ∧ nbrIs n g px py e Terrain.water = true) ∧
              (((px : ℤ) + e.1).toNat, ((py : ℤ) + e.2).toNat) = (qx, qy) := by
        intro dx dy hd hx hy hmem
        refine ⟨(dx, dy), ⟨hmem, ?_⟩, ?_⟩
        · simp only [nbrIs, Bool.and_eq_true, decide_eq_true_eq]
          refine ⟨⟨⟨⟨by omega, by omega⟩, by omega⟩, by omega⟩, ?_⟩
          have e1 : ((px : ℤ) + dx).toNat = qx := by omega
          have e2 : ((py : ℤ) + dy).toNat = qy := by omega
          rw [e1, e2]
          exact hwq
        · simp only [Prod.mk.injEq]
          constructor <;> omega
      rcases hdmem with rfl | rfl | rfl | rfl
      · exact hstep 0 (-1) rfl (by omega) (by omega) (by simp [floodOffsets])
      · exact hstep (-1) 0 rfl (by omega) (by omega) (by simp [floodOffsets])
      · exact hstep 1 0 rfl (by omega) (by omega) (by simp [floodOffsets])
      · exact hstep 0 1 rfl (by omega) (by omega) (by simp [floodOffsets])

/-- Every flood candidate is an in-bounds water cell. -/
theorem floodCandidates_good {n : ℕ} {g : Grid} {p q : ℕ × ℕ}
    (hq : q ∈ floodCandidates n g p) :
    q.1 < n ∧ q.2 < n ∧ g q.1 q.2 = Terrain.water := by
  rcases floodCandidates_char.1 hq with ⟨hqp, h1, h2, h3⟩ | ⟨_, _, _, h1, h2, h3⟩
  · subst hqp; exact ⟨h1, h2, h3⟩
  · exact ⟨h1, h2, h3⟩

/-- `OceanReach` absorbs a flood-candidate step. -/
theorem oceanReach_of_candidate {n : ℕ} {g : Grid} {p q : ℕ × ℕ}
    (hp : OceanReach n g p) (hq : q ∈ floodCandidates n g p) :
    OceanReach n g q := by
  rcases floodCandidates_char.1 hq with ⟨hqp, _, _, _⟩ | hstep
  · exact hqp ▸ hp
  · exact OceanReach.step p q hp hstep

/-- Cells of the grid not yet visited (the flood fill's termination measure
counts them). -/
def unseen (n : ℕ) (visited : List (ℕ × ℕ)) : ℕ :=
  ((cells n).filter (fun p => decide (p ∉ visited))).length

theorem cells_length (n : ℕ) : (cells n).length = n * n := by
  rw [cells, List.length_flatMap]
  have h : (List.map (List.length ∘ fun y => List.map (fun x => (x, y)) (List.range n))
      (List.range n)) = List.map (fun _ => n) (List.range n) := by
    refine List.map_congr_left ?_
    intro y _
    simp
  rw [h, List.map_const', List.sum_replicate, List.length_range, smul_eq_mul]

theorem unseen_le (n : ℕ) (v : List (ℕ × ℕ)) : unseen n v ≤ n * n := by
  calc unseen n v ≤ (cells n).length := List.length_filter_le _ _
    _ = n * n := cells_length n

theorem unseen_snoc (n : ℕ) (v : List (ℕ × ℕ)) (c : ℕ × ℕ)
    (hc1 : c.1 < n) (hc2 : c.2 < n) (hcv : c ∉ v) :
    unseen n (v ++ [c]) + 1 = unseen n v := by
  unfold unseen
  have hfil : (cells n).filter (fun p => decide (p ∉ v ++ [c])) =
      ((cells n).filter (fun p => decide (p ∉ v))).filter (fun x => x != c) := by
    rw [List.filter_filter]
    refine List.filter_congr ?_
    intro p _
    by_cases h1 : p ∈ v <;> by_cases h2 : p = c <;> simp [h1, h2]
  rw [hfil]
  have hnd : ((cells n).filter (fun p => decide (p ∉ v))).Nodup :=
    (cells_nodup n).filter _
  have hcL : c ∈ (cells n).filter (fun p => decide (p ∉ v)) := by
    rw [List.mem_filter]
    exact ⟨mem_cells.2 ⟨hc1, hc2⟩, by simpa using hcv⟩
  rw [← hnd.erase_eq_filter c, List.length_erase_of_mem hcL]
  have := List.length_pos.2 (List.ne_nil_of_mem hcL)
  omega

theorem unseen_append (n : ℕ) :
    ∀ (added v : List (ℕ × ℕ)),
      (∀ c ∈ added, c.1 < n ∧ c.2 < n) →
      (∀ c ∈ added, c ∉ v) → added.Nodup →
      unseen n (v ++ added) + added.length = unseen n v := by
  intro added
  induction added with
  | nil => intro v _ _ _; simp
  | cons c rest ih =>
    intro v hb hd hnd
    have h1 : v ++ c :: rest = (v ++ [c]) ++ rest := by simp
    rw [h1]
    have hcnd := List.nodup_cons.1 hnd
    have hrest := ih (v ++ [c])
      (fun x hx => hb x (List.mem_cons_of_mem c hx))
      (fun x hx => by
        intro hmem
        rcases List.mem_append.1 hmem with h | h
        · exact hd x (List.mem_cons_of_mem c hx) h
        · rw [List.mem_singleton] at h
          exact hcnd.1 (h ▸ hx))
      hcnd.2
    have hsn := unseen_snoc n v c (hb c (List.mem_cons_self c rest)).1
      (hb c (List.mem_cons_self c rest)).2 (hd c (List.mem_cons_self c rest))
    simp only [List.length_cons]
    omega

theorem floodStep_spec (cands : List (ℕ × ℕ)) :
    ∀ (v qu : List (ℕ × ℕ)),
      ∃ added : List (ℕ × ℕ),
        cands.foldl (fun vq q => if q ∈ vq.1 then vq else (vq.1 ++ [q], vq.2 ++ [q]))
            (v, qu) = (v ++ added, qu ++ added) ∧
          (∀ c ∈ added, c ∈ cands ∧ c ∉ v) ∧
          (∀ c ∈ cands, c ∈ v ++ added) ∧
          added.Nodup := by
  induction cands with
  | nil =>
    intro v qu
    exact ⟨[], by simp, by simp, by simp, List.nodup_nil⟩
  | cons c rest ih =>
    intro v qu
    by_cases hc : c ∈ v
    · obtain ⟨added, heq, hsub, hcov, hnd⟩ := ih v qu
      refine ⟨added, ?_,
        fun x hx => ⟨List.mem_cons_of_mem c (hsub x hx).1, (hsub x hx).2⟩, ?_, hnd⟩
      · rw [List.foldl_cons, if_pos hc]
        exact heq
      · intro x hx
        rcases List.mem_cons.1 hx with he | hx'
        · exact List.mem_append.2 (Or.inl (he ▸ hc))
        · exact hcov x hx'
    · obtain ⟨added, heq, hsub, hcov, hnd⟩ := ih (v ++ [c]) (qu ++ [c])
      refine ⟨c :: added, ?_, ?_, ?_, ?_⟩
      · rw [List.foldl_cons, if_neg hc, heq]
        simp
      · intro x hx
        rcases List.mem_cons.1 hx with he | hx'
        · subst he
          exact ⟨List.mem_cons_self _ _, hc⟩
        · obtain ⟨h1, h2⟩ := hsub x hx'
          exact ⟨List.mem_cons_of_mem c h1,
            fun hxv => h2 (List.mem_append.2 (Or.inl hxv))⟩
      · intro x hx
        rcases List.mem_cons.1 hx with he | hx'
        · exact List.mem_append.2 (Or.inr (he ▸ List.mem_cons_self c added))
        · have hin := hcov x hx'
          rcases List.mem_append.1 hin with h | h
          · rcases List.mem_append.1 h with h' | h'
            · exact List.mem_append.2 (Or.inl h')
            · rw [List.mem_singleton] at h'
              exact List.mem_append.2 (Or.inr (h' ▸ List.mem_cons_self c added))
          · exact List.mem_append.2 (Or.inr (List.mem_cons_of_mem c h))
      · refine List.nodup_cons.2 ⟨?_, hnd⟩
        intro hcadded
        exact (hsub c hcadded).2 (List.mem_append.2 (Or.inr (List.mem_singleton.2 rfl)))

theorem floodFill_spec (n : ℕ) (g : Grid) :
    ∀ (fuel : ℕ) (visited queue : List (ℕ × ℕ)),
      (∀ p ∈ queue, p ∈ visited) →
      (∀ p ∈ visited, p.1 < n ∧ p.2 < n ∧ g p.1 p.2 = Terrain.water) →
      (∀ p ∈ visited, OceanReach n g p) →
      (∀ p ∈ visited, p ∈ queue ∨ ∀ q ∈ floodCandidates n g p, q ∈ visited) →
      queue.length + 2 * unseen n visited ≤ fuel →
      (∀ p ∈ visited, p ∈ floodFill n g fuel visited queue) ∧
      (∀ p ∈ floodFill n g fuel visited queue,
        p.1 < n ∧ p.2 < n ∧ g p.1 p.2 = Terrain.water ∧ OceanReach n g p) ∧
      (∀ p ∈ floodFill n g fuel visited queue,
        ∀ q ∈ floodCandidates n g p, q ∈ floodFill n g fuel visited queue) := by
  intro fuel
  induction fuel with
  | zero =>
    intro visited queue hqs hgood hreach hclosed hfuel
    have hq : queue = [] := List.length_eq_zero.1 (by omega)
    subst hq
    have hres : floodFill n g 0 visited [] = visited := rfl
    rw [hres]
    refine ⟨fun p hp => hp, fun p hp => ?_, fun p hp q hq => ?_⟩
    · obtain ⟨h1, h2, h3⟩ := hgood p hp
      exact ⟨h1, h2, h3, hreach p hp⟩
    · rcases hclosed p hp with h | h
      · cases h
      · exact h q hq
  | succ fuel ih =>
    intro visited queue hqs hgood hreach hclosed hfuel
    match queue, hqs, hclosed, hfuel with
    | [], hqs, hclosed, hfuel =>
      have hres : floodFill n g (fuel + 1) visited [] = visited := rfl
      rw [hres]
      refine ⟨fun p hp => hp, fun p hp => ?_, fun p hp q hq => ?_⟩
      · obtain ⟨h1, h2, h3⟩ := hgood p hp
        exact ⟨h1, h2, h3, hreach p hp⟩
      · rcases hclosed p hp with h | h
        · cases h
        · exact h q hq
    | p :: rest, hqs, hclosed, hfuel =>
      obtain ⟨added, heq, hsub, hcov, hnd⟩ :=
        floodStep_spec (floodCandidates n g p) visited rest
      have hrw : floodFill n g (fuel + 1) visited (p :: rest) =
          floodFill n g fuel (visited ++ added) (rest ++ added) := by
        calc floodFill n g (fuel + 1) visited (p :: rest)
            = floodFill n g fuel
                ((floodCandidates n g p).foldl
                  (fun vq q => if q ∈ vq.1 then vq else (vq.1 ++ [q], vq.2 ++ [q]))
                  (visited, rest)).1
                ((floodCandidates n g p).foldl
                  (fun vq q => if q ∈ vq.1 then vq else (vq.1 ++ [q], vq.2 ++ [q]))
                  (visited, rest)).2 := rfl
          _ = floodFill n g fuel (visited ++ added) (rest ++ added) := by rw [heq]
      rw [hrw]
      have haddgood : ∀ c ∈ added, c.1 < n ∧ c.2 < n ∧ g c.1 c.2 = Terrain.water :=
        fun c hcadd => floodCandidates_good ((hsub c hcadd).1)
      have hqs' : ∀ x ∈ rest ++ added, x ∈ visited ++ added := by
        intro x hx
        rcases List.mem_append.1 hx with h | h
        · exact List.mem_append.2 (Or.inl (hqs x (List.mem_cons_of_mem p h)))
        · exact List.mem_append.2 (Or.inr h)
      have hgood' : ∀ x ∈ visited ++ added,
          x.1 < n ∧ x.2 < n ∧ g x.1 x.2 = Terrain.water := by
        intro x hx
        rcases List.mem_append.1 hx with h | h
        · exact hgood x h
        · exact haddgood x h
      have hreach' : ∀ x ∈ visited ++ added, OceanReach n g x := by
        intro x hx
        rcases List.mem_append.1 hx with h | h
        · exact hreach x h
        · exact oceanReach_of_candidate
            (hreach p (hqs p (List.mem_cons_self p rest))) ((hsub x h).1)
      have hclosed' : ∀ x ∈ visited ++ added,
          x ∈ rest ++ added ∨ ∀ q ∈ floodCandidates n g x, q ∈ visited ++ added := by
        intro x hx
        rcases List.mem_append.1 hx with h | h
        · rcases hclosed x h with hq | hcl
          · rcases List.mem_cons.1 hq with rfl | hq'
            · exact Or.inr hcov
            · exact Or.inl (List.mem_append.2 (Or.inl hq'))
          · exact Or.inr (fun q hq => List.mem_append.2 (Or.inl (hcl q hq)))
        · exact Or.inl (List.mem_append.2 (Or.inr h))
      have hmeasure : (rest ++ added).length + 2 * unseen n (visited ++ added) ≤ fuel := by
        have hueq := unseen_append n added visited
          (fun c hc => ⟨(haddgood c hc).1, (haddgood c hc).2.1⟩)
          (fun c hc => (hsub c hc).2) hnd
        simp only [List.length_append, List.length_cons] at hfuel ⊢
        omega
      obtain ⟨ha, hb, hc⟩ := ih (visited ++ added) (rest ++ added)
        hqs' hgood' hreach' hclosed' hmeasure
      exact ⟨fun x hx => ha x (List.mem_append.2 (Or.inl hx)), hb, hc⟩

/-- The seed cells are in-bounds water cells. -/
theorem oceanSeeds_good (n : ℕ) (g : Grid) :
    ∀ p ∈ oceanSeeds n g, p.1 < n ∧ p.2 < n ∧ g p.1 p.2 = Terrain.water := by
  intro p hp
  rw [oceanSeeds, List.mem_filter] at hp
  obtain ⟨hcell, hcond⟩ := hp
  have := mem_cells.1 hcell
  simp only [Bool.and_eq_true, decide_eq_true_eq] at hcond
  exact ⟨this.1, this.2, hcond.1⟩

/-- The three structural properties of the computed ocean set: it contains
the seeds, all its members are in-bounds water cells reachable from the
seeds, and it is closed under the flood step. -/
theorem oceanTiles_props (n : ℕ) (g : Grid) :
    (∀ p ∈ oceanSeeds n g, p ∈ oceanTiles n g) ∧
    (∀ p ∈ oceanTiles n g,
      p.1 < n ∧ p.2 < n ∧ g p.1 p.2 = Terrain.water ∧ OceanReach n g p) ∧
    (∀ p ∈ oceanTiles n g, ∀ q ∈ floodCandidates n g p, q ∈ oceanTiles n g) := by
  have hmeasure : (oceanSeeds n g).length + 2 * unseen n (oceanSeeds n g) ≤
      floodFuel n (oceanSeeds n g) := by
    have := unseen_le n (oceanSeeds n g)
    rw [floodFuel]
    omega
  have h := floodFill_spec n g (floodFuel n (oceanSeeds n g))
    (oceanSeeds n g) (oceanSeeds n g)
    (fun p hp => hp) (oceanSeeds_good n g)
    (fun p hp => OceanReach.seed p hp) (fun p hp => Or.inl hp) hmeasure
  exact h

/-- Completeness: everything 4-connected-reachable from the seeds is in the
computed ocean set. -/
theorem oceanReach_mem_oceanTiles (n : ℕ) (g : Grid) (p : ℕ × ℕ)
    (h : OceanReach n g p) : p ∈ oceanTiles n g := by
  induction h with
  | seed p hp => exact (oceanTiles_props n g).1 p hp
  | step p q _ hstep ih =>
    exact (oceanTiles_props n g).2.2 p ih q (floodCandidates_char.2 (Or.inr hstep))

theorem mem_lakeTiles {n : ℕ} {g : Grid} {ocean : List (ℕ × ℕ)} {p : ℕ × ℕ} :
    p ∈ lakeTiles n g ocean ↔
      p.1 < n ∧ p.2 < n ∧ g p.1 p.2 = Terrain.water ∧ p ∉ ocean := by
  rw [lakeTiles, List.mem_filter]
  simp only [Bool.and_eq_true, decide_eq_true_eq, mem_cells]
  tauto

/-- C4: Stage D's classification partitions the water cells: the computed
ocean and lake tiles are in-bounds water cells, no cell is in both sets,
every water cell is in exactly one, and the ocean set is exactly the set of
cells reachable by the 4-connected flood fill through contiguous water from
the border seed cells. -/
theorem c4_ocean_lake_partition (n : ℕ) (g : Grid) :
    (∀ p ∈ oceanTiles n g, p.1 < n ∧ p.2 < n ∧ g p.1 p.2 = Terrain.water) ∧
    (∀ p ∈ lakeTiles n g (oceanTiles n g),
      p.1 < n ∧ p.2 < n ∧ g p.1 p.2 = Terrain.water) ∧
    (∀ p : ℕ × ℕ, ¬(p ∈ oceanTiles n g ∧ p ∈ lakeTiles n g (oceanTiles n g))) ∧
    (∀ p : ℕ × ℕ, p.1 < n → p.2 < n → g p.1 p.2 = Terrain.water →
      p ∈ oceanTiles n g ∨ p ∈ lakeTiles n g (oceanTiles n g)) ∧
    (∀ p : ℕ × ℕ, p ∈ oceanTiles n g ↔ OceanReach n g p) := by
  obtain ⟨hseeds, hmem, hclosed⟩ := oceanTiles_props n g
  refine ⟨?_, ?_, ?_, ?_, ?_⟩
  · intro p hp
    obtain ⟨h1, h2, h3, _⟩ := hmem p hp
    exact ⟨h1, h2, h3⟩
  · intro p hp
    obtain ⟨h1, h2, h3, _⟩ := mem_lakeTiles.1 hp
    exact ⟨h1, h2, h3⟩
  · rintro p ⟨ho, hl⟩
    exact (mem_lakeTiles.1 hl).2.2.2 ho
  · intro p h1 h2 h3
    by_cases ho : p ∈ oceanTiles n g
    · exact Or.inl ho
    · exact Or.inr (mem_lakeTiles.2 ⟨h1, h2, h3, ho⟩)
  · intro p
    exact ⟨fun hp => (hmem p hp).2.2.2, oceanReach_mem_oceanTiles n g p⟩

/-- Witness for C4 on the all-water 1×1 grid. -/
theorem c4_ocean_lake_partition_witness :
    (0 : ℕ) < 1 ∧ blankGrid 0 0 = Terrain.water ∧
      ((0, 0) ∈ oceanTiles 1 blankGrid ∨
        (0, 0) ∈ lakeTiles 1 blankGrid (oceanTiles 1 blankGrid)) := by
  refine ⟨by norm_num, rfl, ?_⟩
  exact (c4_ocean_lake_partition 1 blankGrid).2.2.2.1 (0, 0) (by norm_num)
    (by norm_num) rfl

/-! ### Stage E / desert smoothing: beach preservation (C3) -/

theorem countNbrs_pos_of_any {n : ℕ} {g : Grid} {x y : ℕ} {ds : List (ℤ × ℤ)}
    {t : Terrain} (h : ds.any (fun d => nbrIs n g x y d t) = true) :
    0 < countNbrs n g x y ds t := by
  obtain ⟨d, hd, hdd⟩ := List.any_eq_true.1 h
  have hmem : d ∈ ds.filter (fun d => nbrIs n g x y d t) :=
    List.mem_filter.2 ⟨hd, hdd⟩
  exact List.length_pos.2 (List.ne_nil_of_mem hmem)

theorem isolatedSandTest_false_of_water {n : ℕ} {g : Grid} {x y : ℕ}
    (hw : offsets8.any (fun d => nbrIs n g x y d Terrain.water) = true) :
    isolatedSandTest n g x y = false := by
  have hpos : 0 < countNbrs n g x y offsets8 Terrain.water := countNbrs_pos_of_any hw
  unfold isolatedSandTest
  rw [if_pos hpos]

theorem desertEdgeSandTest_false_of_water {n : ℕ} {g : Grid} {x y : ℕ}
    (hw : offsets8.any (fun d => nbrIs n g x y d Terrain.water) = true) :
    desertEdgeSandTest n g x y = false := by
  have h9 : offsets9.any (fun d => nbrIs n g x y d Terrain.water) = true := by
    obtain ⟨d, hd, hdd⟩ := List.any_eq_true.1 hw
    refine List.any_eq_true.2 ⟨d, ?_, hdd⟩
    have hsub : ∀ e : ℤ × ℤ, e ∈ offsets8 → e ∈ offsets9 := by decide
    exact hsub d hd
  unfold desertEdgeSandTest
  rw [if_pos h9]

theorem erodeApply_cell (n : ℕ) (g : Grid) (a b : ℕ) :
    erodeApply n g a b =
      if (a, b) ∈ erodeTargets n g then Terrain.grass else g a b := by
  rw [erodeApply, foldl_setCell_const]

theorem smoothPass_cell (n : ℕ) (g : Grid) (a b : ℕ) :
    smoothPass n g a b =
      if (a, b) ∈ fillTargets n (erodeApply n g) then Terrain.sand
      else erodeApply n g a b := by
  rw [smoothPass, foldl_setCell_const]

theorem desertErodeApply_cell (n : ℕ) (g : Grid) (a b : ℕ) :
    desertErodeApply n g a b =
      if (a, b) ∈ desertErodeTargets n g then Terrain.grass else g a b := by
  rw [desertErodeApply, foldl_setCell_const]

theorem smoothDesertEdges_cell (n : ℕ) (g : Grid) (a b : ℕ) :
    smoothDesertEdges n g a b =
      if (a, b) ∈ desertFillTargets n (desertErodeApply n g) then Terrain.sand
      else desertErodeApply n g a b := by
  rw [smoothDesertEdges, foldl_setCell_const]

theorem smoothPass_beach (n : ℕ) (g : Grid) (a b : ℕ)
    (hs : g a b = Terrain.sand)
    (hw : offsets8.any (fun d => nbrIs n g a b d Terrain.water) = true) :
    smoothPass n g a b = Terrain.sand := by
  have h1 : (a, b) ∉ erodeTargets n g := by
    intro hmem
    have hc := (List.mem_filter.1 hmem).2
    rw [isolatedSandTest_false_of_water hw, Bool.and_false] at hc
    cases hc
  have h2 : erodeApply n g a b = Terrain.sand := by
    rw [erodeApply_cell, if_neg h1, hs]
  have h3 : (a, b) ∉ fillTargets n (erodeApply n g) := by
    intro hmem
    have hc := (List.mem_filter.1 hmem).2
    simp only [Bool.and_eq_true, decide_eq_true_eq] at hc
    rw [h2] at hc
    cases hc.1
  rw [smoothPass_cell, if_neg h3, h2]

theorem smoothDesertEdges_beach (n : ℕ) (g : Grid) (a b : ℕ)
    (hs : g a b = Terrain.sand)
    (hw : offsets8.any (fun d => nbrIs n g a b d Terrain.water) = true) :
    smoothDesertEdges n g a b = Terrain.sand := by
  have h1 : (a, b) ∉ desertErodeTargets n g := by
    intro hmem
    have hc := (List.mem_filter.1 hmem).2
    rw [desertEdgeSandTest_false_of_water hw, Bool.and_false] at hc
    cases hc
  have h2 : desertErodeApply n g a b = Terrain.sand := by
    rw [desertErodeApply_cell, if_neg h1, hs]
  have h3 : (a, b) ∉ desertFillTargets n (desertErodeApply n g) := by
    intro hmem
    have hc := (List.mem_filter.1 hmem).2
    simp only [Bool.and_eq_true, decide_eq_true_eq] at hc
    rw [h2] at hc
    cases hc.1
  rw [smoothDesertEdges_cell, if_neg h3, h2]

/-- C3: a sand cell with a water cell in its 8-neighbourhood, as the pass
examines the grid, is still sand after the pass — for each of the Stage-E
passes (`removeIsolatedTiles` runs `smoothPass` three times) and for the
desert edge-smoothing pass. -/
theorem c3_beach_preservation (n : ℕ) (g : Grid) (a b : ℕ)
    (hs : g a b = Terrain.sand)
    (hw : offsets8.any (fun d => nbrIs n g a b d Terrain.water) = true) :
    smoothPass n g a b = Terrain.sand ∧
      smoothDesertEdges n g a b = Terrain.sand :=
  ⟨smoothPass_beach n g a b hs hw, smoothDesertEdges_beach n g a b hs hw⟩

/-- A miniature pre-state for the C3 witness: water at (0,0), sand at (1,1),
grass elsewhere. -/
def beachProbe : Grid := fun x y =>
  if x = 0 ∧ y = 0 then Terrain.water
  else if x = 1 ∧ y = 1 then Terrain.sand
  else Terrain.grass

/-- Witness for C3 on the 4×4 probe grid. -/
theorem c3_beach_preservation_witness :
    beachProbe 1 1 = Terrain.sand ∧
      offsets8.any (fun d => nbrIs 4 beachProbe 1 1 d Terrain.water) = true ∧
      smoothPass 4 beachProbe 1 1 = Terrain.sand ∧
      smoothDesertEdges 4 beachProbe 1 1 = Terrain.sand := by
  have hs : beachProbe 1 1 = Terrain.sand := rfl
  have hw : offsets8.any (fun d => nbrIs 4 beachProbe 1 1 d Terrain.water) = true := by
    decide
  obtain ⟨h1, h2⟩ := c3_beach_preservation 4 beachProbe 1 1 hs hw
  exact ⟨hs, hw, h1, h2⟩

/-! ### Water-footprint preservation after Stage C (C10) -/

/-- Pointwise evolution of the beach/smoothing/desert stages: a cell is
unchanged, or converts between the two land terrains (never to or from
water). -/
def NonWaterStep (g g' : Grid) : Prop :=
  ∀ a b, g' a b = g a b ∨ (g a b ≠ Terrain.water ∧ g' a b ≠ Terrain.water)

theorem nonWaterStep_refl (g : Grid) : NonWaterStep g g := fun _ _ => Or.inl rfl

theorem nonWaterStep_trans {g g' g'' : Grid} (h1 : NonWaterStep g g')
    (h2 : NonWaterStep g' g'') : NonWaterStep g g'' := by
  intro a b
  rcases h1 a b with e1 | ⟨w1, w1'⟩
  · rcases h2 a b with e2 | ⟨w2, w2'⟩
    · exact Or.inl (e2.trans e1)
    · exact Or.inr ⟨e1 ▸ w2, w2'⟩
  · rcases h2 a b with e2 | ⟨w2, w2'⟩
    · exact Or.inr ⟨w1, e2 ▸ w1'⟩
    · exact Or.inr ⟨w1, w2'⟩

theorem nonWaterStep_water_iff {g g' : Grid} (h : NonWaterStep g g')
    (a b : ℕ) : g' a b = Terrain.water ↔ g a b = Terrain.water := by
  rcases h a b with e | ⟨w, w'⟩
  · rw [e]
  · exact ⟨fun hh => absurd hh w', fun hh => absurd hh w⟩

theorem applySand_nonWater (ps : List (ℕ × ℕ)) (g : Grid) :
    NonWaterStep g (applySand ps g) := by
  intro a b
  rw [applySand_cell]
  by_cases h : (a, b) ∈ ps ∧ g a b = Terrain.grass
  · rw [if_pos h]
    exact Or.inr ⟨h.2 ▸ Terrain.noConfusion, Terrain.noConfusion⟩
  · rw [if_neg h]
    exact Or.inl rfl

theorem addConsistentBeaches_nonWater (n : ℕ) (g : Grid) :
    NonWaterStep g (addConsistentBeaches n g) := by
  unfold addConsistentBeaches
  exact nonWaterStep_trans (applySand_nonWater _ _)
    (nonWaterStep_trans (applySand_nonWater _ _) (applySand_nonWater _ _))

theorem erodeApply_nonWater (n : ℕ) (g : Grid) :
    NonWaterStep g (erodeApply n g) := by
  intro a b
  rw [erodeApply_cell]
  by_cases h : (a, b) ∈ erodeTargets n g
  · rw [if_pos h]
    have hc := (List.mem_filter.1 h).2
    simp only [Bool.and_eq_true, decide_eq_true_eq] at hc
    exact Or.inr ⟨hc.1 ▸ Terrain.noConfusion, Terrain.noConfusion⟩
  · rw [if_neg h]
    exact Or.inl rfl

theorem smoothPass_nonWater (n : ℕ) (g : Grid) :
    NonWaterStep g (smoothPass n g) := by
  refine nonWaterStep_trans (erodeApply_nonWater n g) ?_
  intro a b
  rw [smoothPass_cell]
  by_cases h : (a, b) ∈ fillTargets n (erodeApply n g)
  · rw [if_pos h]
    have hc := (List.mem_filter.1 h).2
    simp only [Bool.and_eq_true, decide_eq_true_eq] at hc
    exact Or.inr ⟨hc.1 ▸ Terrain.noConfusion, Terrain.noConfusion⟩
  · rw [if_neg h]
    exact Or.inl rfl

theorem removeIsolatedTiles_nonWater (n : ℕ) (g : Grid) :
    NonWaterStep g (removeIsolatedTiles n g) := by
  unfold removeIsolatedTiles
  exact nonWaterStep_trans (smoothPass_nonWater n g)
    (nonWaterStep_trans (smoothPass_nonWater n _) (smoothPass_nonWater n _))

theorem desertErodeApply_nonWater (n : ℕ) (g : Grid) :
    NonWaterStep g (desertErodeApply n g) := by
  intro a b
  rw [desertErodeApply_cell]
  by_cases h : (a, b) ∈ desertErodeTargets n g
  · rw [if_pos h]
    have hc := (List.mem_filter.1 h).2
    simp only [Bool.and_eq_true, decide_eq_true_eq] at hc
    exact Or.inr ⟨hc.1 ▸ Terrain.noConfusion, Terrain.noConfusion⟩
  · rw [if_neg h]
    exact Or.inl rfl

theorem smoothDesertEdges_nonWater (n : ℕ) (g : Grid) :
    NonWaterStep g (smoothDesertEdges n g) := by
  refine nonWaterStep_trans (desertErodeApply_nonWater n g) ?_
  intro a b
  rw [smoothDesertEdges_cell]
  by_cases h : (a, b) ∈ desertFillTargets n (desertErodeApply n g)
  · rw [if_pos h]
    have hc := (List.mem_filter.1 h).2
    simp only [Bool.and_eq_true, decide_eq_true_eq] at hc
    exact Or.inr ⟨hc.1 ▸ Terrain.noConfusion, Terrain.noConfusion⟩
  · rw [if_neg h]
    exact Or.inl rfl

theorem desertStep_eq (sx sy : ℕ) (av bv rot : ℚ) (size : ℤ)
    (acc : List (ℕ × ℕ) × Rng) (q : ℕ × ℕ) :
    (let (v, r') := acc.2.next
     if desertCellTest sx sy av bv rot size q v then (acc.1 ++ [q], r')
     else (acc.1, r')) =
    ((if desertCellTest sx sy av bv rot size q (acc.2.vals acc.2.idx)
        then acc.1 ++ [q] else acc.1),
      (⟨acc.2.vals, acc.2.idx + 1⟩ : Rng)) := by
  show (if desertCellTest sx sy av bv rot size q (acc.2.vals acc.2.idx)
      then (acc.1 ++ [q], (⟨acc.2.vals, acc.2.idx + 1⟩ : Rng))
      else (acc.1, (⟨acc.2.vals, acc.2.idx + 1⟩ : Rng))) = _
  by_cases ht : desertCellTest sx sy av bv rot size q (acc.2.vals acc.2.idx) = true
  · rw [if_pos ht, if_pos ht]
  · rw [if_neg ht, if_neg ht]

theorem collectDesertCells_grass (n : ℕ) (g : Grid) (sx sy : ℕ)
    (av bv rot : ℚ) (size : ℤ) (r : Rng) :
    ∀ p ∈ (collectDesertCells n g sx sy av bv rot size r).1,
      g p.1 p.2 = Terrain.grass := by
  have key : ∀ (box : List (ℕ × ℕ)) (acc : List (ℕ × ℕ) × Rng),
      (∀ p ∈ acc.1, g p.1 p.2 = Terrain.grass) →
      ∀ p ∈ (box.foldl (fun (acc : List (ℕ × ℕ) × Rng) p =>
          if g p.1 p.2 = Terrain.grass then
            let (v, r') := acc.2.next
            if desertCellTest sx sy av bv rot size p v then (acc.1 ++ [p], r')
            else (acc.1, r')
          else acc) acc).1, g p.1 p.2 = Terrain.grass := by
    intro box
    induction box with
    | nil => intro acc hacc p hp; exact hacc p hp
    | cons q rest ih =>
      intro acc hacc p hp
      rw [List.foldl_cons] at hp
      refine ih _ ?_ p hp
      intro x hx
      by_cases hg : g q.1 q.2 = Terrain.grass
      · rw [if_pos hg, desertStep_eq] at hx
        dsimp only at hx
        by_cases ht : desertCellTest sx sy av bv rot size q (acc.2.vals acc.2.idx) = true
        · rw [if_pos ht] at hx
          rcases List.mem_append.1 hx with h | h
          · exact hacc x h
          · rw [List.mem_singleton] at h
            exact h ▸ hg
        · rw [if_neg ht] at hx
          exact hacc x hx
      · rw [if_neg hg] at hx
        exact hacc x hx
  intro p hp
  exact key (desertBox n sx sy size) ([], r) (by intro x hx; cases hx) p hp

theorem nbrIs_true_elim {n : ℕ} {g : Grid} {x y : ℕ} {d : ℤ × ℤ} {t : Terrain}
    (h : nbrIs n g x y d t = true) :
    g ((x : ℤ) + d.1).toNat ((y : ℤ) + d.2).toNat = t ∧
      ((x : ℤ) + d.1).toNat < n ∧ ((y : ℤ) + d.2).toNat < n := by
  simp only [nbrIs, Bool.and_eq_true, decide_eq_true_eq] at h
  obtain ⟨⟨⟨⟨h1, h2⟩, h3⟩, h4⟩, h5⟩ := h
  exact ⟨h5, by omega, by omega⟩

theorem desertExtraCells_grass (n : ℕ) (g : Grid) (desert : List (ℕ × ℕ)) :
    ∀ q ∈ desertExtraCells n g desert, g q.1 q.2 = Terrain.grass := by
  have inner : ∀ (p : ℕ × ℕ) (ds : List (ℤ × ℤ)) (acc : List (ℕ × ℕ)),
      (∀ q ∈ acc, g q.1 q.2 = Terrain.grass) →
      ∀ q ∈ ds.foldl (fun acc d =>
          if nbrIs n g p.1 p.2 d Terrain.grass then
            let q := (((p.1 : ℤ) + d.1).toNat, ((p.2 : ℤ) + d.2).toNat)
            let cnt := (offsets9.filter (fun e =>
              let qx : ℤ := (q.1 : ℤ) + e.1
              let qy : ℤ := (q.2 : ℤ) + e.2
              decide (0 ≤ qx) && decide (qx < n) && decide (0 ≤ qy) &&
                decide (qy < n) && decide ((qx.toNat, qy.toNat) ∈ desert))).length
            if 5 ≤ cnt then (if q ∈ acc then acc else acc ++ [q]) else acc
          else acc) acc,
        g q.1 q.2 = Terrain.grass := by
    intro p ds
    induction ds with
    | nil => intro acc hacc q hq; exact hacc q hq
    | cons d rest ih =>
      intro acc hacc q hq
      rw [List.foldl_cons] at hq
      refine ih _ ?_ q hq
      intro x hx
      by_cases hn : nbrIs n g p.1 p.2 d Terrain.grass = true
      · rw [if_pos hn] at hx
        dsimp only at hx
        split at hx
        · split at hx
          · exact hacc x hx
          · rcases List.mem_append.1 hx with h | h
            · exact hacc x h
            · rw [List.mem_singleton] at h
              subst h
              exact (nbrIs_true_elim hn).1
        · exact hacc x hx
      · rw [if_neg hn] at hx
        exact hacc x hx
  intro q0 hq0
  have key : ∀ (l : List (ℕ × ℕ)) (acc : List (ℕ × ℕ)),
      (∀ q ∈ acc, g q.1 q.2 = Terrain.grass) →
      ∀ q ∈ l.foldl (fun acc p =>
          offsets9.foldl (fun acc d =>
            if nbrIs n g p.1 p.2 d Terrain.grass then
              let q := (((p.1 : ℤ) + d.1).toNat, ((p.2 : ℤ) + d.2).toNat)
              let cnt := (offsets9.filter (fun e =>
                let qx : ℤ := (q.1 : ℤ) + e.1
                let qy : ℤ := (q.2 : ℤ) + e.2
                decide (0 ≤ qx) && decide (qx < n) && decide (0 ≤ qy) &&
                  decide (qy < n) && decide ((qx.toNat, qy.toNat) ∈ desert))).length
              if 5 ≤ cnt then (if q ∈ acc then acc else acc ++ [q]) else acc
            else acc) acc) acc,
        g q.1 q.2 = Terrain.grass := by
    intro l
    induction l with
    | nil => intro acc hacc q hq; exact hacc q hq
    | cons p rest ih =>
      intro acc hacc q hq
      rw [List.foldl_cons] at hq
      exact ih _ (inner p offsets9 acc hacc) q hq
  exact key desert [] (by intro x hx; cases hx) q0 hq0

theorem foldSand_nonWater (g : Grid) (ps : List (ℕ × ℕ))
    (hg : ∀ p ∈ ps, g p.1 p.2 = Terrain.grass) :
    NonWaterStep g (ps.foldl (fun g p => setCell g p.1 p.2 Terrain.sand) g) := by
  intro a b
  rw [foldl_setCell_const]
  by_cases h : (a, b) ∈ ps
  · rw [if_pos h]
    exact Or.inr ⟨fun hww => Terrain.noConfusion ((hg (a, b) h).symm.trans hww),
      Terrain.noConfusion⟩
  · rw [if_neg h]
    exact Or.inl rfl

theorem addSmoothDesert_nonWater (n : ℕ) (g : Grid) (r : Rng) :
    NonWaterStep g (addSmoothDesert n g r).1 := by
  unfold addSmoothDesert
  rcases h1 : Rng.randint r 5 8 with ⟨size, r1⟩
  dsimp only
  rcases h2 : findDesertStart n g 50 r1 with ⟨o, r2⟩
  cases o with
  | none => exact nonWaterStep_refl g
  | some st =>
    obtain ⟨sx, sy⟩ := st
    dsimp only
    rcases h3 : r2.uniform 1 (3 / 2) with ⟨av, r3⟩
    dsimp only
    rcases h4 : r3.uniform 1 (3 / 2) with ⟨bv, r4⟩
    dsimp only
    rcases h5 : r4.uniform 0 piQ with ⟨rot, r5⟩
    dsimp only
    rcases h6 : collectDesertCells n g sx sy av bv rot size r5 with ⟨desert, r6⟩
    dsimp only
    have hdesert : ∀ p ∈ desert, g p.1 p.2 = Terrain.grass := by
      have hh := collectDesertCells_grass n g sx sy av bv rot size r5
      rw [h6] at hh
      exact hh
    have hstep1 : NonWaterStep g
        (desert.foldl (fun g p => setCell g p.1 p.2 Terrain.sand) g) :=
      foldSand_nonWater g desert hdesert
    have hstep2 : NonWaterStep
        (desert.foldl (fun g p => setCell g p.1 p.2 Terrain.sand) g)
        ((desertExtraCells n
            (desert.foldl (fun g p => setCell g p.1 p.2 Terrain.sand) g) desert).foldl
          (fun g p => setCell g p.1 p.2 Terrain.sand)
          (desert.foldl (fun g p => setCell g p.1 p.2 Terrain.sand) g)) :=
      foldSand_nonWater _ _ (desertExtraCells_grass n _ desert)
    exact nonWaterStep_trans hstep1 (nonWaterStep_trans hstep2
      (smoothDesertEdges_nonWater n _))

/-- C10: once Stage C (lakes) has run, the set of water cells never changes
again: for every cell, the final grid returned by `generate_map` holds water
exactly when the grid at the end of Stage C does — the beach stage, the
three smoothing passes, the desert stage only convert between grass and
sand, and object placement changes no terrain. -/
theorem c10_water_footprint_frozen (gridSize tileSize : ℤ) (r : Rng)
    (a b : ℕ) :
    ((generateMap gridSize tileSize r).grid a b = Terrain.water ↔
      (addLakes gridSize.toNat
        (createMainIsland gridSize.toNat (createWaterBase gridSize.toNat) r).1
        (createMainIsland gridSize.toNat (createWaterBase gridSize.toNat) r).2).1
          a b = Terrain.water) := by
  have hgrid : (generateMap gridSize tileSize r).grid =
      (addSmoothDesert gridSize.toNat
        (removeIsolatedTiles gridSize.toNat
          (addConsistentBeaches gridSize.toNat
            (addLakes gridSize.toNat
              (createMainIsland gridSize.toNat (createWaterBase gridSize.toNat) r).1
              (createMainIsland gridSize.toNat (createWaterBase gridSize.toNat) r).2).1))
        (addLakes gridSize.toNat
          (createMainIsland gridSize.toNat (createWaterBase gridSize.toNat) r).1
          (createMainIsland gridSize.toNat (createWaterBase gridSize.toNat) r).2).2).1 :=
    rfl
  rw [hgrid]
  refine nonWaterStep_water_iff ?_ a b
  exact nonWaterStep_trans
    (addConsistentBeaches_nonWater gridSize.toNat _)
    (nonWaterStep_trans (removeIsolatedTiles_nonWater gridSize.toNat _)
      (addSmoothDesert_nonWater gridSize.toNat _ _))

/-! ### Determinism (C1) -/

/-- C1: `generate_map` consumes only its stream: two runs with identical
streams produce the same terrain at every cell, the same object map, and
the same pixel dimensions. -/
theorem c1_determinism (gridSize tileSize : ℤ) (r1 r2 : Rng) (h : r1 = r2) :
    (∀ a b : ℕ, (generateMap gridSize tileSize r1).grid a b =
      (generateMap gridSize tileSize r2).grid a b) ∧
    (generateMap gridSize tileSize r1).objs =
      (generateMap gridSize tileSize r2).objs ∧
    (generateMap gridSize tileSize r1).dims =
      (generateMap gridSize tileSize r2).dims := by
  subst h
  exact ⟨fun a b => rfl, rfl, rfl⟩

/-- Witness for C1 with two copies of the zero stream. -/
theorem c1_determinism_witness :
    (∀ a b : ℕ, (generateMap 7 3 ⟨fun _ => 0, 0⟩).grid a b =
      (generateMap 7 3 ⟨fun _ => 0, 0⟩).grid a b) ∧
    (generateMap 7 3 ⟨fun _ => 0, 0⟩).objs =
      (generateMap 7 3 ⟨fun _ => 0, 0⟩).objs ∧
    (generateMap 7 3 ⟨fun _ => 0, 0⟩).dims =
      (generateMap 7 3 ⟨fun _ => 0, 0⟩).dims :=
  c1_determinism 7 3 ⟨fun _ => 0, 0⟩ ⟨fun _ => 0, 0⟩ rfl

/-! ### Degenerate grid size (C7) -/

theorem lakeBox_zero (lX lY lR : ℤ) : lakeBox 0 lX lY lR = [] := by
  rw [lakeBox]
  have h : (min ((0 : ℕ) : ℤ) (lY + lR + 1) - max 0 (lY - lR)).toNat = 0 := by
    have h1 : min ((0 : ℕ) : ℤ) (lY + lR + 1) ≤ 0 :=
      le_trans (min_le_left _ _) (by norm_num)
    have h2 : (0 : ℤ) ≤ max 0 (lY - lR) := le_max_left _ _
    omega
  simp only [intRangeN, h, List.range_zero, List.map_nil, List.flatMap_nil]

theorem addOneLake_zero (gr : Grid × Rng) : (addOneLake 0 gr).1 = gr.1 := by
  unfold addOneLake
  dsimp only
  rw [lakeBox_zero]
  rfl

theorem addLakes_zero (g : Grid) (r : Rng) : (addLakes 0 g r).1 = g := by
  show ((List.range ((r.randint 1 2).1.toNat)).foldl
    (fun gr _ => addOneLake 0 gr) (g, (r.randint 1 2).2)).1 = g
  have key : ∀ (l : List ℕ) (gr : Grid × Rng),
      (l.foldl (fun gr _ => addOneLake 0 gr) gr).1 = gr.1 := by
    intro l
    induction l with
    | nil => intro gr; rfl
    | cons u rest ih =>
      intro gr
      rw [List.foldl_cons]
      rw [ih (addOneLake 0 gr)]
      exact addOneLake_zero gr
  exact key _ _

theorem findDesertStart_zero_none (g : Grid) :
    ∀ (fuel : ℕ) (r : Rng), (findDesertStart 0 g fuel r).1 = none := by
  intro fuel
  induction fuel with
  | zero => intro r; rfl
  | succ att ih =>
    intro r
    show (findDesertStart 0 g (att + 1) r).1 = none
    unfold findDesertStart
    dsimp only
    rw [if_neg]
    · exact ih _
    · rintro ⟨hx1, hx2, -⟩
      have : ((0 : ℕ) : ℤ) = 0 := rfl
      omega

theorem addSmoothDesert_zero (g : Grid) (r : Rng) :
    (addSmoothDesert 0 g r).1 = g := by
  unfold addSmoothDesert
  rcases h1 : Rng.randint r 5 8 with ⟨size, r1⟩
  dsimp only
  rcases h2 : findDesertStart 0 g 50 r1 with ⟨o, r2⟩
  have ho : o = none := by
    have hh := findDesertStart_zero_none g 50 r1
    rw [h2] at hh
    exact hh
  subst ho
  rfl

theorem addTreesAndRocks_zero (g : Grid) (r : Rng) :
    (addTreesAndRocks 0 g [] r).1 = [] := by
  unfold addTreesAndRocks
  rcases h1 : Rng.randint r 3 5 with ⟨nf, r1⟩
  dsimp only
  rcases h2 : pickForestCenters 0 g nf.toNat r1 [] with ⟨centers, r2⟩
  dsimp only
  have h3 : placeTrees 0 g centers [] r2 = ([], r2) := rfl
  rw [h3]
  rfl

/-- With a nonpositive grid size every loop range is empty: generation runs
to completion and returns the all-water blank grid, no objects, and pixel
dimensions `grid_size × tile_size` per axis. -/
theorem generateMap_nonpos (gridSize tileSize : ℤ) (r : Rng)
    (h : gridSize ≤ 0) :
    (generateMap gridSize tileSize r).objs = [] ∧
      (∀ a b : ℕ, (generateMap gridSize tileSize r).grid a b = Terrain.water) ∧
      (generateMap gridSize tileSize r).dims =
        (gridSize * tileSize, gridSize * tileSize) := by
  have hn : gridSize.toNat = 0 := by omega
  refine ⟨?_, ?_, rfl⟩
  · have hobjs : (generateMap gridSize tileSize r).objs =
        (addTreesAndRocks gridSize.toNat
          (addSmoothDesert gridSize.toNat
            (removeIsolatedTiles gridSize.toNat
              (addConsistentBeaches gridSize.toNat
                (addLakes gridSize.toNat
                  (createMainIsland gridSize.toNat (createWaterBase gridSize.toNat) r).1
                  (createMainIsland gridSize.toNat (createWaterBase gridSize.toNat) r).2).1))
            (addLakes gridSize.toNat
              (createMainIsland gridSize.toNat (createWaterBase gridSize.toNat) r).1
              (createMainIsland gridSize.toNat (createWaterBase gridSize.toNat) r).2).2).1
          []
          (addSmoothDesert gridSize.toNat
            (removeIsolatedTiles gridSize.toNat
              (addConsistentBeaches gridSize.toNat
                (addLakes gridSize.toNat
                  (createMainIsland gridSize.toNat (createWaterBase gridSize.toNat) r).1
                  (createMainIsland gridSize.toNat (createWaterBase gridSize.toNat) r).2).1))
            (addLakes gridSize.toNat
              (createMainIsland gridSize.toNat (createWaterBase gridSize.toNat) r).1
              (createMainIsland gridSize.toNat (createWaterBase gridSize.toNat) r).2).2).2).1 :=
      rfl
    rw [hobjs, hn]
    exact addTreesAndRocks_zero _ _
  · intro a b
    have hgrid : (generateMap gridSize tileSize r).grid =
        (addSmoothDesert gridSize.toNat
          (removeIsolatedTiles gridSize.toNat
            (addConsistentBeaches gridSize.toNat
              (addLakes gridSize.toNat
                (createMainIsland gridSize.toNat (createWaterBase gridSize.toNat) r).1
                (createMainIsland gridSize.toNat (createWaterBase gridSize.toNat) r).2).1))
          (addLakes gridSize.toNat
            (createMainIsland gridSize.toNat (createWaterBase gridSize.toNat) r).1
            (createMainIsland gridSize.toNat (createWaterBase gridSize.toNat) r).2).2).1 :=
      rfl
    rw [hgrid, hn]
    rw [addSmoothDesert_zero]
    have hremove : ∀ g : Grid, removeIsolatedTiles 0 g = g := fun g => rfl
    have hbeach : ∀ g : Grid, addConsistentBeaches 0 g = g := fun g => rfl
    rw [hremove, hbeach, addLakes_zero]
    have hisland : (createMainIsland 0 (createWaterBase 0) r).1 =
        createWaterBase 0 := rfl
    rw [hisland]
    exact createWaterBase_cell 0 a b

/-- C7 counterexample: invoked with grid size 0, generation completes
normally (no precondition error exists in the code) and silently returns the
degenerate map: no objects, water everywhere, zero pixel extent. -/
theorem c7_counterexample :
    (generateMap 0 1 ⟨fun _ => 0, 0⟩).objs = [] ∧
      (generateMap 0 1 ⟨fun _ => 0, 0⟩).grid 0 0 = Terrain.water ∧
      (generateMap 0 1 ⟨fun _ => 0, 0⟩).dims = (0, 0) := by
  obtain ⟨h1, h2, h3⟩ := generateMap_nonpos 0 1 ⟨fun _ => 0, 0⟩ (by norm_num)
  refine ⟨h1, h2 0 0, ?_⟩
  rw [h3]
  norm_num

/-- C7 (amended): with a zero or negative grid size, `generate_map` does not
fail; it silently completes and returns a degenerate map — empty object
map, all-water grid, and pixel dimensions `grid_size * tile_size` (zero or
negative). -/
theorem c7_degenerate_silent (gridSize tileSize : ℤ) (r : Rng)
    (h : gridSize ≤ 0) :
    (generateMap gridSize tileSize r).objs = [] ∧
      (∀ a b : ℕ, (generateMap gridSize tileSize r).grid a b = Terrain.water) ∧
      (generateMap gridSize tileSize r).dims =
        (gridSize * tileSize, gridSize * tileSize) :=
  generateMap_nonpos gridSize tileSize r h

/-- Witness for C7 at grid size -1. -/
theorem c7_degenerate_silent_witness :
    (-1 : ℤ) ≤ 0 ∧
      ((generateMap (-1) 4 ⟨fun _ => 0, 0⟩).objs = [] ∧
        (∀ a b : ℕ, (generateMap (-1) 4 ⟨fun _ => 0, 0⟩).grid a b = Terrain.water) ∧
        (generateMap (-1) 4 ⟨fun _ => 0, 0⟩).dims = ((-1) * 4, (-1) * 4)) :=
  ⟨by norm_num, c7_degenerate_silent (-1) 4 ⟨fun _ => 0, 0⟩ (by norm_num)⟩

/-! ### Permutation facts for `choice` and `shuffle` (Stage G) -/

theorem cons_set_perm {α : Type} {a b : α} :
    ∀ {l : List α} {j : ℕ}, l.get? j = some b → (b :: l.set j a).Perm (a :: l) := by
  intro l
  induction l with
  | nil => intro j h; cases h
  | cons c t ih =>
    intro j h
    cases j with
    | zero =>
      injection h with h
      subst h
      exact List.Perm.swap a c t
    | succ j' =>
      have hj : t.get? j' = some b := h
      show (b :: c :: t.set j' a).Perm (a :: c :: t)
      exact ((List.Perm.swap c b _).trans ((ih hj).cons c)).trans
        (List.Perm.swap a c t)

theorem set_set_perm {α : Type} :
    ∀ (l : List α) (i j : ℕ) (a b : α), l.get? i = some a → l.get? j = some b →
      ((l.set i b).set j a).Perm l := by
  intro l
  induction l with
  | nil => intro i j a b h _; cases h
  | cons c t ih =>
    intro i j a b hi hj
    cases i with
    | zero =>
      injection hi with hi
      subst hi
      cases j with
      | zero => exact List.Perm.refl (c :: t)
      | succ j' =>
        have hjt : t.get? j' = some b := hj
        exact cons_set_perm hjt
    | succ i' =>
      have hit : t.get? i' = some a := hi
      cases j with
      | zero =>
        injection hj with hj
        subst hj
        exact cons_set_perm hit
      | succ j' =>
        have hjt : t.get? j' = some b := hj
        exact (ih i' j' a b hit hjt).cons c

theorem listSwap_perm {α : Type} (l : List α) (i j : ℕ) :
    (listSwap l i j).Perm l := by
  unfold listSwap
  split
  · next a b hi hj => exact set_set_perm l i j a b hi hj
  · exact List.Perm.refl l

theorem shuffleAux_perm {α : Type} :
    ∀ (k : ℕ) (l : List α) (r : Rng), ((shuffleAux k l r).1).Perm l := by
  intro k
  induction k with
  | zero => intro l r; exact List.Perm.refl l
  | succ i ih =>
    intro l r
    exact (ih _ _).trans (listSwap_perm l (i + 1) _)

theorem shuffle_perm {α : Type} (r : Rng) (l : List α) :
    ((r.shuffle l).1).Perm l :=
  shuffleAux_perm _ _ _

theorem choice_mem {α : Type} (r : Rng) (l : List α) (d : α) (hl : l ≠ []) :
    (r.choice l d).1 ∈ l := by
  show l.getD (natBelow (r.vals r.idx) l.length) d ∈ l
  have hlen : 0 < l.length := List.length_pos.2 hl
  have hlt : natBelow (r.vals r.idx) l.length < l.length := by
    have := min_le_right (Int.toNat ⌊r.vals r.idx * l.length⌋) (l.length - 1)
    unfold natBelow
    omega
  rw [List.getD_eq_getElem?_getD, List.getElem?_eq_getElem hlt]
  exact List.getElem_mem hlt

/-! ### Rock placement: count, distinctness, eligibility (C5) -/

theorem natRange_nodup (lo hi : ℕ) : (natRange lo hi).Nodup :=
  (List.nodup_range _).map (fun a b h => by omega)

theorem availableSpots_nodup (n : ℕ) (g : Grid) (objs : ObjMap) :
    (availableSpots n g objs).Nodup :=
  (rect_nodup _ _ (natRange_nodup 5 (n - 5)) (natRange_nodup 5 (n - 5))).filter _

theorem availableSpots_not_water {n : ℕ} {g : Grid} {objs : ObjMap}
    {p : ℕ × ℕ} (hp : p ∈ availableSpots n g objs) :
    g p.1 p.2 ≠ Terrain.water := by
  rw [availableSpots, List.mem_filter] at hp
  have h := hp.2
  simp only [Bool.and_eq_true, Bool.not_eq_true', Bool.or_eq_false_iff,
    decide_eq_false_iff_not] at h
  exact h.1.1

theorem quadrantsOf_subset (n : ℕ) (spots : List (ℕ × ℕ)) :
    ∀ q ∈ quadrantsOf n spots, ∀ p ∈ q, p ∈ spots := by
  intro q hq
  simp only [quadrantsOf, List.mem_cons, List.not_mem_nil, or_false] at hq
  rcases hq with rfl | rfl | rfl | rfl <;>
    exact fun p hp => (List.mem_filter.1 hp).1

theorem quadrantsOf_pairwise (n : ℕ) (spots : List (ℕ × ℕ)) :
    (quadrantsOf n spots).Pairwise List.Disjoint := by
  have hdis : ∀ (f1 f2 : ℕ × ℕ → Bool), (∀ p, ¬(f1 p = true ∧ f2 p = true)) →
      List.Disjoint (spots.filter f1) (spots.filter f2) := by
    intro f1 f2 h x hx1 hx2
    exact h x ⟨(List.mem_filter.1 hx1).2, (List.mem_filter.1 hx2).2⟩
  simp only [quadrantsOf]
  refine List.Pairwise.cons ?_ (List.Pairwise.cons ?_ (List.Pairwise.cons ?_
    (List.pairwise_singleton _ _)))
  · intro q hq
    simp only [List.mem_cons, List.not_mem_nil, or_false] at hq
    rcases hq with rfl | rfl | rfl <;>
      refine hdis _ _ (fun p => ?_) <;>
      · simp only [Bool.and_eq_true, decide_eq_true_eq, not_and]
        omega
  · intro q hq
    simp only [List.mem_cons, List.not_mem_nil, or_false] at hq
    rcases hq with rfl | rfl <;>
      refine hdis _ _ (fun p => ?_) <;>
      · simp only [Bool.and_eq_true, decide_eq_true_eq, not_and]
        omega
  · intro q hq
    simp only [List.mem_cons, List.not_mem_nil, or_false] at hq
    rcases hq with rfl <;>
      refine hdis _ _ (fun p => ?_) <;>
      · simp only [Bool.and_eq_true, decide_eq_true_eq, not_and]
        omega

theorem choiceStep_eq (acc : List (ℕ × ℕ) × Rng) (q : List (ℕ × ℕ)) :
    (let (pos, r') := acc.2.choice q (0, 0)
     (acc.1 ++ [pos], r')) =
    (acc.1 ++ [(acc.2.choice q (0, 0)).1], (acc.2.choice q (0, 0)).2) := rfl

theorem quadFold_spec :
    ∀ (quads : List (List (ℕ × ℕ))), (∀ q ∈ quads, q ≠ []) →
      ∀ (acc : List (ℕ × ℕ)) (r : Rng),
        ∃ picks : List (ℕ × ℕ),
          (quads.foldl (fun (acc : List (ℕ × ℕ) × Rng) q =>
            let (pos, r') := acc.2.choice q (0, 0)
            (acc.1 ++ [pos], r')) (acc, r)).1 = acc ++ picks ∧
          List.Forall₂ (fun p q => p ∈ q) picks quads := by
  intro quads
  induction quads with
  | nil =>
    intro _ acc r
    exact ⟨[], by simp, List.Forall₂.nil⟩
  | cons q rest ih =>
    intro hne acc r
    rw [List.foldl_cons, choiceStep_eq]
    dsimp only
    obtain ⟨picks, heq, hf⟩ := ih (fun x hx => hne x (List.mem_cons_of_mem _ hx))
      (acc ++ [(Rng.choice r q (0, 0)).1]) (Rng.choice r q (0, 0)).2
    refine ⟨(Rng.choice r q (0, 0)).1 :: picks, ?_, ?_⟩
    · rw [heq]
      simp
    · exact List.Forall₂.cons
        (choice_mem r q (0, 0) (hne q (List.mem_cons_self q rest))) hf

theorem forall2_mem {picks : List (ℕ × ℕ)} {quads : List (List (ℕ × ℕ))}
    (h : List.Forall₂ (fun p q => p ∈ q) picks quads) :
    ∀ p ∈ picks, ∃ q ∈ quads, p ∈ q := by
  induction h with
  | nil => intro p hp; cases hp
  | cons hpq htail ih =>
    intro p hp
    rcases List.mem_cons.1 hp with he | hp'
    · subst he
      exact ⟨_, List.mem_cons_self _ _, hpq⟩
    · obtain ⟨q', hq', hpq'⟩ := ih p hp'
      exact ⟨q', List.mem_cons_of_mem _ hq', hpq'⟩

theorem forall2_nodup {picks : List (ℕ × ℕ)} {quads : List (List (ℕ × ℕ))}
    (h : List.Forall₂ (fun p q => p ∈ q) picks quads)
    (hdis : quads.Pairwise List.Disjoint) : picks.Nodup := by
  induction h with
  | nil => exact List.nodup_nil
  | cons hpq htail ih =>
    have hd := List.pairwise_cons.1 hdis
    refine List.nodup_cons.2 ⟨?_, ih hd.2⟩
    intro hmem
    obtain ⟨q', hq', hpq'⟩ := forall2_mem htail _ hmem
    exact hd.1 q' hq' hpq hpq'

theorem length_filter_not_mem {α : Type} [BEq α] [LawfulBEq α] :
    ∀ (fp : List α) (s : List α), s.Nodup → fp.Nodup → (∀ x ∈ fp, x ∈ s) →
      (s.filter (fun p => decide (p ∉ fp))).length + fp.length = s.length := by
  intro fp
  induction fp with
  | nil =>
    intro s _ _ _
    simp
  | cons a t ih =>
    intro s hs ht hsub
    have hstep : s.filter (fun p => decide (p ∉ a :: t)) =
        (s.filter (fun p => decide (p ∉ t))).filter (fun x => x != a) := by
      rw [List.filter_filter]
      refine List.filter_congr ?_
      intro p _
      by_cases h1 : p ∈ t <;> by_cases h2 : p = a <;> simp [h1, h2]
    rw [hstep]
    have hndc := List.nodup_cons.1 ht
    have hnd2 : (s.filter (fun p => decide (p ∉ t))).Nodup := hs.filter _
    have ha : a ∈ s.filter (fun p => decide (p ∉ t)) :=
      List.mem_filter.2 ⟨hsub a (List.mem_cons_self a t), by simpa using hndc.1⟩
    rw [← hnd2.erase_eq_filter, List.length_erase_of_mem ha]
    have hpos := List.length_pos.2 (List.ne_nil_of_mem ha)
    have hrec := ih s hs hndc.2 (fun x hx => hsub x (List.mem_cons_of_mem a hx))
    simp only [List.length_cons]
    omega

theorem rockFirstPicks_forall2 (spots : List (ℕ × ℕ)) (n : ℕ) (r : Rng) :
    List.Forall₂ (fun p q => p ∈ q) (rockFirstPicks spots n r).1
      (((quadrantsOf n spots).filter (fun q => !q.isEmpty)).take rockCount) := by
  have hne : ∀ q ∈ ((quadrantsOf n spots).filter (fun q => !q.isEmpty)).take rockCount,
      q ≠ [] := by
    intro q hq
    have hq' := List.mem_of_mem_take hq
    have hfalse := (List.mem_filter.1 hq').2
    simp only [Bool.not_eq_true'] at hfalse
    intro hnil
    rw [hnil] at hfalse
    simp at hfalse
  obtain ⟨picks, heq, hf⟩ := quadFold_spec _ hne [] r
  have : (rockFirstPicks spots n r).1 = picks := by
    rw [rockFirstPicks, heq, List.nil_append]
  rw [this]
  exact hf

theorem rockFirstPicks_props (spots : List (ℕ × ℕ)) (n : ℕ) (r : Rng) :
    (rockFirstPicks spots n r).1.length =
        (((quadrantsOf n spots).filter (fun q => !q.isEmpty)).take rockCount).length ∧
      (rockFirstPicks spots n r).1.Nodup ∧
      (∀ p ∈ (rockFirstPicks spots n r).1, p ∈ spots) := by
  have hf := rockFirstPicks_forall2 spots n r
  have hpair : (((quadrantsOf n spots).filter (fun q => !q.isEmpty)).take
      rockCount).Pairwise List.Disjoint :=
    ((quadrantsOf_pairwise n spots).sublist (List.filter_sublist _)).sublist
      (List.take_sublist _ _)
  refine ⟨hf.length_eq, forall2_nodup hf hpair, ?_⟩
  intro p hp
  obtain ⟨q, hq, hpq⟩ := forall2_mem hf p hp
  have hq' := List.mem_filter.1 (List.mem_of_mem_take hq)
  exact quadrantsOf_subset n spots q hq'.1 p hpq

theorem rock_min_pos (K A B : ℕ) (h1 : 0 < rockCount - K) (h3 : K ≤ rockCount)
    (hr : A + K = B) (hA : 0 < A) : K + min (rockCount - K) A = min rockCount B := by
  simp only [rockCount] at h1 h3 ⊢
  omega

theorem rock_min_neg1 (K A B : ℕ) (h1 : ¬ 0 < rockCount - K) (h3 : K ≤ rockCount)
    (hr : A + K = B) : K = min rockCount B := by
  simp only [rockCount] at h1 h3 ⊢
  omega

theorem rock_min_neg2 (K A B : ℕ) (h3 : K ≤ rockCount) (hr : A + K = B)
    (h0 : A = 0) : K = min rockCount B := by
  simp only [rockCount] at h3 ⊢
  omega

theorem rockPositions_spec (spots : List (ℕ × ℕ)) (n : ℕ) (r : Rng)
    (hspots : spots.Nodup) :
    (rockPositions spots n r).1.length = min rockCount spots.length ∧
      (rockPositions spots n r).1.Nodup ∧
      (∀ p ∈ (rockPositions spots n r).1, p ∈ spots) := by
  obtain ⟨hlen, hnd, hsub⟩ := rockFirstPicks_props spots n r
  have hk3 : (((quadrantsOf n spots).filter (fun q => !q.isEmpty)).take
      rockCount).length ≤ rockCount := by
    rw [List.length_take]
    omega
  have hrem := length_filter_not_mem (rockFirstPicks spots n r).1 spots hspots hnd hsub
  have hremnd : (spots.filter
      (fun p => decide (p ∉ (rockFirstPicks spots n r).1))).Nodup := hspots.filter _
  rw [hlen] at hrem
  unfold rockPositions
  dsimp only
  by_cases hcond : 0 < rockCount - (rockFirstPicks spots n r).1.length ∧
      (spots.filter (fun p => decide (p ∉ (rockFirstPicks spots n r).1))).isEmpty = false
  · rw [if_pos hcond]
    obtain ⟨hc1, hc2⟩ := hcond
    rw [hlen] at hc1
    have hperm := shuffle_perm (rockFirstPicks spots n r).2
      (spots.filter (fun p => decide (p ∉ (rockFirstPicks spots n r).1)))
    have hshlen := hperm.length_eq
    have hshnd := hperm.symm.nodup hremnd
    have hremne : 0 < (spots.filter
        (fun p => decide (p ∉ (rockFirstPicks spots n r).1))).length := by
      rcases Nat.eq_zero_or_pos (spots.filter
          (fun p => decide (p ∉ (rockFirstPicks spots n r).1))).length with h0 | h0
      · rw [List.isEmpty_iff_length_eq_zero.2 h0] at hc2
        cases hc2
      · exact h0
    refine ⟨?_, ?_, ?_⟩
    · rw [List.length_append, List.length_take, hshlen, hlen]
      exact rock_min_pos _ _ _ hc1 hk3 hrem hremne
    · refine List.Nodup.append hnd
        ((hshnd.sublist (List.take_sublist _ _))) ?_
      intro a ha hamem
      have h1 := List.mem_of_mem_take hamem
      have h2 := hperm.mem_iff.1 h1
      have h3 := (List.mem_filter.1 h2).2
      simp only [decide_eq_true_eq] at h3
      exact h3 ha
    · intro p hp
      rcases List.mem_append.1 hp with h | h
      · exact hsub p h
      · have h1 := List.mem_of_mem_take h
        have h2 := hperm.mem_iff.1 h1
        exact (List.mem_filter.1 h2).1
  · rw [if_neg hcond]
    refine ⟨?_, hnd, hsub⟩
    rw [hlen]
    rcases Decidable.not_and_iff_or_not.1 hcond with h | h
    · rw [hlen] at h
      exact rock_min_neg1 _ _ _ h hk3 hrem
    · have hh : (spots.filter
          (fun p => decide (p ∉ (rockFirstPicks spots n r).1))).isEmpty = true := by
        revert h
        cases (spots.filter
          (fun p => decide (p ∉ (rockFirstPicks spots n r).1))).isEmpty <;> simp
      have h0 := List.isEmpty_iff_length_eq_zero.1 hh
      exact rock_min_neg2 _ _ _ hk3 hrem h0

theorem treeStep_eq (centers : List (ℕ × ℕ × ℤ)) (acc : ObjMap × Rng)
    (p : ℕ × ℕ) :
    (let (v, r') := acc.2.next
     if treeRoll centers p.1 p.2 v then (acc.1 ++ [(p, ObjKind.tree)], r')
     else (acc.1, r')) =
    ((if treeRoll centers p.1 p.2 (acc.2.vals acc.2.idx)
        then acc.1 ++ [(p, ObjKind.tree)] else acc.1),
      (⟨acc.2.vals, acc.2.idx + 1⟩ : Rng)) := by
  show (if treeRoll centers p.1 p.2 (acc.2.vals acc.2.idx)
      then (acc.1 ++ [(p, ObjKind.tree)], (⟨acc.2.vals, acc.2.idx + 1⟩ : Rng))
      else (acc.1, (⟨acc.2.vals, acc.2.idx + 1⟩ : Rng))) = _
  by_cases ht : treeRoll centers p.1 p.2 (acc.2.vals acc.2.idx) = true
  · rw [if_pos ht, if_pos ht]
  · rw [if_neg ht, if_neg ht]

theorem placeTrees_mem (n : ℕ) (g : Grid) (centers : List (ℕ × ℕ × ℤ))
    (objs : ObjMap) (r : Rng) :
    ∀ e ∈ (placeTrees n g centers objs r).1,
      e ∈ objs ∨ g e.1.1 e.1.2 = Terrain.grass := by
  have key : ∀ (l : List (ℕ × ℕ)) (acc : ObjMap × Rng),
      (∀ e ∈ acc.1, e ∈ objs ∨ g e.1.1 e.1.2 = Terrain.grass) →
      ∀ e ∈ (l.foldl (fun (acc : ObjMap × Rng) p =>
        if g p.1 p.2 = Terrain.grass ∧ acc.1.all (fun e => !decide (e.1 = p)) then
          if nearWater n g p.1 p.2 then acc
          else
            let (v, r') := acc.2.next
            if treeRoll centers p.1 p.2 v then (acc.1 ++ [(p, ObjKind.tree)], r')
            else (acc.1, r')
        else acc) acc).1,
      e ∈ objs ∨ g e.1.1 e.1.2 = Terrain.grass := by
    intro l
    induction l with
    | nil => intro acc hacc e he; exact hacc e he
    | cons p t ih =>
      intro acc hacc e he
      rw [List.foldl_cons] at he
      refine ih _ ?_ e he
      intro x hx
      by_cases h1 : g p.1 p.2 = Terrain.grass ∧
          acc.1.all (fun e => !decide (e.1 = p)) = true
      · rw [if_pos h1] at hx
        by_cases h2 : nearWater n g p.1 p.2 = true
        · rw [if_pos h2] at hx
          exact hacc x hx
        · rw [if_neg h2, treeStep_eq] at hx
          dsimp only at hx
          by_cases h3 : treeRoll centers p.1 p.2 (acc.2.vals acc.2.idx) = true
          · rw [if_pos h3] at hx
            rcases List.mem_append.1 hx with h | h
            · exact hacc x h
            · rw [List.mem_singleton] at h
              subst h
              exact Or.inr h1.1
          · rw [if_neg h3] at hx
            exact hacc x hx
      · rw [if_neg h1] at hx
        exact hacc x hx
  intro e he
  exact key (cells n) (objs, r) (fun e he => Or.inl he) e he

theorem foldl_append_rock :
    ∀ (ps : List (ℕ × ℕ)) (objs : ObjMap),
      ps.foldl (fun o p => o ++ [(p, ObjKind.rock)]) objs
        = objs ++ ps.map (fun p => (p, ObjKind.rock)) := by
  intro ps
  induction ps with
  | nil => intro objs; simp
  | cons a t ih =>
    intro objs
    rw [List.foldl_cons, ih]
    simp

theorem placeRocks_spec (n : ℕ) (g : Grid) (objs : ObjMap) (r : Rng) :
    ∃ positions : List (ℕ × ℕ),
      (placeRocks n g objs r).1 =
          objs ++ positions.map (fun p => (p, ObjKind.rock)) ∧
        positions.length = min rockCount (availableSpots n g objs).length ∧
        positions.Nodup ∧
        ∀ p ∈ positions, p ∈ availableSpots n g objs := by
  unfold placeRocks
  dsimp only
  by_cases hsp : (availableSpots n g objs).isEmpty = true
  · rw [if_pos hsp]
    refine ⟨[], by simp, ?_, List.nodup_nil,
      fun p hp => absurd hp (List.not_mem_nil p)⟩
    rw [List.isEmpty_iff_length_eq_zero.1 hsp]
    simp
  · rw [if_neg hsp]
    obtain ⟨hlen, hnd, hsub⟩ := rockPositions_spec (availableSpots n g objs) n r
      (availableSpots_nodup n g objs)
    exact ⟨(rockPositions (availableSpots n g objs) n r).1,
      foldl_append_rock _ _, hlen, hnd, hsub⟩

theorem addTreesAndRocks_mem (n : ℕ) (g : Grid) (objs : ObjMap) (r : Rng) :
    ∀ e ∈ (addTreesAndRocks n g objs r).1,
      e ∈ objs ∨ g e.1.1 e.1.2 ≠ Terrain.water := by
  unfold addTreesAndRocks
  rcases h1 : r.randint 3 5 with ⟨nf, r1⟩
  dsimp only
  rcases h2 : pickForestCenters n g nf.toNat r1 [] with ⟨centers, r2⟩
  dsimp only
  rcases h3 : placeTrees n g centers objs r2 with ⟨objs1, r3⟩
  dsimp only
  intro e he
  obtain ⟨pos, heq, hlen, hnd, hsub⟩ := placeRocks_spec n g objs1 r3
  rw [heq] at he
  rcases List.mem_append.1 he with h | h
  · have hmem : e ∈ (placeTrees n g centers objs r2).1 := by
      rw [h3]
      exact h
    rcases placeTrees_mem n g centers objs r2 e hmem with h' | h'
    · exact Or.inl h'
    · refine Or.inr ?_
      rw [h']
      exact fun hw => Terrain.noConfusion hw
  · obtain ⟨p, hp, hpe⟩ := List.mem_map.1 h
    subst hpe
    exact Or.inr (availableSpots_not_water (hsub p hp))

theorem generateMap_objs_grid (gridSize tileSize : ℤ) (r : Rng) :
    ∃ rr : Rng, (generateMap gridSize tileSize r).objs =
      (addTreesAndRocks gridSize.toNat
        (generateMap gridSize tileSize r).grid [] rr).1 := by
  exact ⟨_, rfl⟩

/-- C2: every position key of the final object map sits on a non-Water cell
of the final grid — trees are only placed on cells the final grid shows as
Grass, and rocks only on eligible (non-Water) spots. -/
theorem c2_objects_not_on_water (gridSize tileSize : ℤ) (r : Rng) :
    ((generateMap gridSize tileSize r).objs.all
      (fun e => !decide ((generateMap gridSize tileSize r).grid e.1.1 e.1.2 =
        Terrain.water))) = true := by
  rw [List.all_eq_true]
  intro e he
  simp only [Bool.not_eq_true', decide_eq_false_iff_not]
  obtain ⟨rr, hobjs⟩ := generateMap_objs_grid gridSize tileSize r
  rw [hobjs] at he
  rcases addTreesAndRocks_mem gridSize.toNat
      (generateMap gridSize tileSize r).grid [] rr e he with h | h
  · cases h
  · exact h

/-- C5: the rock stage places exactly `min(ROCK_COUNT, E)` rocks, where `E`
counts the eligible cells at the time rocks are placed; the rocks are
appended to the object map, occupy pairwise-distinct eligible cells, and the
stage always completes (it is a total function, also when `E < 3`). -/
theorem c5_rock_count (n : ℕ) (g : Grid) (objs : ObjMap) (r : Rng) :
    ∃ positions : List (ℕ × ℕ),
      (placeRocks n g objs r).1 =
          objs ++ positions.map (fun p => (p, ObjKind.rock)) ∧
        positions.length = min rockCount (availableSpots n g objs).length ∧
        positions.Nodup ∧
        (positions.all (fun p => decide (p ∈ availableSpots n g objs))) = true := by
  obtain ⟨pos, heq, hlen, hnd, hsub⟩ := placeRocks_spec n g objs r
  refine ⟨pos, heq, hlen, hnd, ?_⟩
  rw [List.all_eq_true]
  intro p hp
  exact decide_eq_true (hsub p hp)

end MapGen
